import Mathlib

/-!
Verification of the time-entry lifecycle and overlap-consistency core of a
multi-tenant time-tracking backend.

The definitions below are a shallow embedding of the Python sources:
  - `app/repositories/time_entry_repo.py` (store, overlap checker, aggregation)
  - `app/services/time_tracking_service.py` (lifecycle engine)
  - `app/api/v1/reports.py` (project-aggregates route)
and the lookup repositories (`project_repo`, `task_repo`, `tag_repo`,
`user_repo`).

Modelling conventions:
  - UUIDs are `Nat`; timestamps are `Int` (UTC seconds); dates are `Int`
    day indices with `datetime.combine(d, min/max time)` rendered as the
    first/last second of the day.
  - A Python `dict` produced by `model_dump(exclude_unset=True)` is a record
    of `Option (Option _)` fields: the outer layer is key presence, the inner
    layer is an explicit JSON `null`.
  - Raised `HTTPException`s become `Except.error`; since the source issues
    its writes without a wrapping transaction, every service result carries
    the resulting store in both the ok and the error case (an uncaught
    `ValueError`/integrity error can leave a partially written state).
  - Tortoise `filter(...).first()` is `List.find?`; `.exists()` is
    `List.any`; saving a fetched row writes back through its primary key.
-/

namespace TimeCore

/-- Authenticated principal as the `UserData` TypedDict: `id`, `role`
("boss"/"worker"), `organization_id`, `is_active`. -/
structure UserData where
  id : Nat
  role : String
  organization_id : Nat
  is_active : Bool
deriving Repr, DecidableEq

/-- Row of the `projects` table (fields used by this core). -/
structure Project where
  id : Nat
  organization_id : Nat
  name : String
deriving Repr, DecidableEq

/-- Row of the `tasks` table: org scoping goes through the parent project. -/
structure Task where
  id : Nat
  project_id : Nat
deriving Repr, DecidableEq

/-- Row of the `tags` table. -/
structure Tag where
  id : Nat
  organization_id : Nat
deriving Repr, DecidableEq

/-- Row of the `time_entries` table together with its many-to-many tag set. -/
structure TimeEntry where
  id : Nat
  user_id : Nat
  project_id : Nat
  task_id : Option Nat
  organization_id : Nat
  start_time : Int
  end_time : Option Int
  is_running : Bool
  is_billable : Bool
  description : Option String
  tags : List Nat
deriving Repr, DecidableEq

/-- The persistent state visible to this core: the `time_entries` table plus
the read-only project/task/tag/user directories. -/
structure Store where
  entries : List TimeEntry
  projects : List Project
  tasks : List Task
  tags : List Tag
  users : List UserData
deriving Repr, DecidableEq

/-- Error taxonomy: the four `HTTPException` kinds raised by the service,
plus the unhandled-exception outcomes reachable from repository code
(`ValueError` from `_validate_tags`, `TypeError` from comparing `None`
with a datetime, a NOT NULL integrity error from saving, and Tortoise's
`DoesNotExist`). -/
inductive ApiError where
  | notFound (detail : String)
  | forbidden (detail : String)
  | conflict (detail : String)
  | badRequest (detail : String)
  | valueError (detail : String)
  | typeError (detail : String)
  | integrityError (detail : String)
  | doesNotExist (detail : String)
deriving Repr, DecidableEq

/-- `TimeEntryStart` request schema (`tag_ids` defaults to `[]`). -/
structure TimeEntryStart where
  project_id : Nat
  task_id : Option Nat
  is_billable : Bool
  description : Option String
  tag_ids : List Nat
deriving Repr, DecidableEq

/-- `TimeEntryCreate` request schema for manual entries. -/
structure TimeEntryCreate where
  project_id : Nat
  task_id : Option Nat
  start_time : Int
  end_time : Int
  is_billable : Bool
  description : Option String
  tag_ids : List Nat
deriving Repr, DecidableEq

/-- `TimeEntryUpdate` patch after `model_dump(exclude_unset=True)`: outer
`Option` is key presence in the dump, inner `Option` is an explicit null. -/
structure TimeEntryUpdate where
  project_id : Option (Option Nat)
  task_id : Option (Option Nat)
  start_time : Option (Option Int)
  end_time : Option (Option Int)
  is_billable : Option (Option Bool)
  description : Option (Option String)
  tag_ids : Option (Option (List Nat))
deriving Repr, DecidableEq

/-- The all-keys-absent patch. -/
def emptyPatch : TimeEntryUpdate :=
  { project_id := none, task_id := none, start_time := none, end_time := none
    is_billable := none, description := none, tag_ids := none }

/-- `project_repo.get_by_id(project_id, org_id)`: org-scoped first match. -/
def project_get (projects : List Project) (project_id : Nat) (org_id : Nat) : Option Project :=
  projects.find? (fun p => p.id == project_id && p.organization_id == org_id)

/-- `task_repo.get_by_id(task_id, org_id)`: filters by
`project__organization_id=org_id`, i.e. the parent project's organization. -/
def task_get (tasks : List Task) (projects : List Project) (task_id : Nat) (org_id : Nat) :
    Option Task :=
  tasks.find? (fun t => t.id == task_id &&
    (match projects.find? (fun p => p.id == t.project_id) with
     | some p => p.organization_id == org_id
     | none => false))

/-- `tag_repo.get_by_id(tag_id, org_id)`. -/
def tag_get (tags : List Tag) (tag_id : Nat) (org_id : Nat) : Option Tag :=
  tags.find? (fun t => t.id == tag_id && t.organization_id == org_id)

/-- `user_repo.get_by_id(user_id)`: a global (not org-scoped) lookup. -/
def user_get (users : List UserData) (user_id : Nat) : Option UserData :=
  users.find? (fun u => u.id == user_id)

/-- `TimeEntryRepository.get_by_id(entry_id, org_id)`. -/
def get_by_id (entries : List TimeEntry) (entry_id : Nat) (org_id : Nat) : Option TimeEntry :=
  entries.find? (fun e => e.id == entry_id && e.organization_id == org_id)

/-- `TimeEntryRepository.get_running_entry(user_id, org_id)`. -/
def get_running_entry (entries : List TimeEntry) (user_id : Nat) (org_id : Nat) :
    Option TimeEntry :=
  entries.find? (fun e => e.user_id == user_id && e.organization_id == org_id && e.is_running)

/-- `TimeEntryRepository.check_overlap(user_id, start_time, end_time,
exclude_entry_id)`: a running entry overlaps when its `start_time < end_time`;
a completed one when `start_time < end_time AND end_time > start_time`
(SQL three-valued logic makes the latter false when its `end_time` is NULL). -/
def check_overlap (entries : List TimeEntry) (user_id : Nat) (start_time end_time : Int)
    (exclude_entry_id : Option Nat) : Bool :=
  let base := entries.filter (fun e => e.user_id == user_id)
  let base : List TimeEntry :=
    match exclude_entry_id with
    | some x => base.filter (fun e => !(e.id == x))
    | none => base
  base.any (fun e =>
    (e.is_running && decide (e.start_time < end_time)) ||
    (!e.is_running && decide (e.start_time < end_time) &&
      (match e.end_time with
       | some et => decide (et > start_time)
       | none => false)))

/-- Success predicate of `TimeEntryRepository._validate_tags(tag_ids, org_id)`:
the number of distinct tag rows matching `id__in=tag_ids, organization_id=org_id`
must equal `len(tag_ids)`, else it raises `ValueError`. -/
def validate_tags_ok (tags : List Tag) (tag_ids : List Nat) (org_id : Nat) : Bool :=
  (tags.filter (fun t => tag_ids.contains t.id && t.organization_id == org_id)).length
    == tag_ids.length

/-- `TimeEntryRepository.create(...)`: inserts the row, then (when `tag_ids`
is a non-empty list) validates and attaches the tags; a `ValueError` from the
validation leaves the freshly inserted row behind, since the two steps are not
wrapped in a transaction. -/
def repo_create (store : Store) (user_id project_id : Nat) (task_id : Option Nat)
    (organization_id : Nat) (start_time : Int) (end_time : Option Int)
    (is_running is_billable : Bool) (description : Option String)
    (tag_ids : Option (List Nat)) (new_id : Nat) :
    Except (ApiError × Store) (TimeEntry × Store) :=
  let e0 : TimeEntry :=
    { id := new_id, user_id := user_id, project_id := project_id, task_id := task_id
      organization_id := organization_id, start_time := start_time, end_time := end_time
      is_running := is_running, is_billable := is_billable, description := description
      tags := [] }
  match tag_ids with
  | none => .ok (e0, { store with entries := store.entries ++ [e0] })
  | some tids =>
    if tids.isEmpty then
      .ok (e0, { store with entries := store.entries ++ [e0] })
    else if validate_tags_ok store.tags tids organization_id then
      let e1 := { e0 with tags := tids }
      .ok (e1, { store with entries := store.entries ++ [e1] })
    else
      .error (.valueError "Tags not found in organization",
        { store with entries := store.entries ++ [e0] })

/-- The row mutation `stop_timer` performs before saving. -/
def stopped_row (e : TimeEntry) (end_time : Int) : TimeEntry :=
  { e with end_time := some end_time, is_running := false }

/-- `TimeEntryRepository.stop_timer(entry_id, end_time)`: fetches by primary
key only (`.get(id=entry_id)`, no org filter), sets `end_time`/`is_running`,
and saves through the primary key. -/
def repo_stop_timer (entries : List TimeEntry) (entry_id : Nat) (end_time : Int) :
    Option (TimeEntry × List TimeEntry) :=
  match entries.find? (fun e => e.id == entry_id) with
  | none => none
  | some e =>
    some (stopped_row e end_time,
      entries.map (fun x => if x.id == entry_id then stopped_row e end_time else x))

/-- A patched non-nullable column (`project_id`, `start_time`, `is_billable`)
receiving an explicit null makes the subsequent `save()` hit a NOT NULL
constraint. -/
def patch_null_violation (data : TimeEntryUpdate) : Bool :=
  data.project_id == some none || data.start_time == some none ||
    data.is_billable == some none

/-- Field part of `TimeEntryRepository.update`: `setattr` for every present
key except `tag_ids`. -/
def apply_patch_fields (e : TimeEntry) (data : TimeEntryUpdate) : TimeEntry :=
  { e with
    project_id := match data.project_id with | some (some v) => v | _ => e.project_id
    task_id := match data.task_id with | some v => v | none => e.task_id
    start_time := match data.start_time with | some (some v) => v | _ => e.start_time
    end_time := match data.end_time with | some v => v | none => e.end_time
    is_billable := match data.is_billable with | some (some v) => v | _ => e.is_billable
    description := match data.description with | some v => v | none => e.description }

/-- Write back a saved row through its primary key. -/
def save_entry (entries : List TimeEntry) (entry_id : Nat) (e2 : TimeEntry) : List TimeEntry :=
  entries.map (fun x => if x.id == entry_id then e2 else x)

/-- `TimeEntryRepository.update(entry_id, org_id, data)`: org-scoped fetch
(`None` when missing), pop `tag_ids`, `setattr` the remaining keys, save, then
— only when the `tag_ids` key was present with a non-`None` value — clear the
tag set and re-attach the validated new set.  A `ValueError` from tag
validation strikes after the save and the clear, leaving that partial state. -/
def repo_update (store : Store) (entry_id : Nat) (org_id : Nat) (data : TimeEntryUpdate) :
    Except (ApiError × Store) (Option TimeEntry × Store) :=
  match get_by_id store.entries entry_id org_id with
  | none => .ok (none, store)
  | some entry =>
    if patch_null_violation data then
      .error (.integrityError "null value in NOT NULL column", store)
    else
      let e1 := apply_patch_fields entry data
      match data.tag_ids with
      | none =>
        .ok (some e1, { store with entries := save_entry store.entries entry_id e1 })
      | some none =>
        .ok (some e1, { store with entries := save_entry store.entries entry_id e1 })
      | some (some tids) =>
        let e2 := { e1 with tags := [] }
        if tids.isEmpty then
          .ok (some e2, { store with entries := save_entry store.entries entry_id e2 })
        else if validate_tags_ok store.tags tids org_id then
          let e3 := { e1 with tags := tids }
          .ok (some e3, { store with entries := save_entry store.entries entry_id e3 })
        else
          .error (.valueError "Tags not found in organization",
            { store with entries := save_entry store.entries entry_id e2 })

/-- `TimeEntryRepository.delete(entry_id, org_id)`: org-scoped fetch, then a
hard delete of that row (tag associations go with the row). -/
def repo_delete (store : Store) (entry_id : Nat) (org_id : Nat) : Bool × Store :=
  match get_by_id store.entries entry_id org_id with
  | none => (false, store)
  | some _ =>
    (true, { store with entries :=
      store.entries.eraseP (fun e => e.id == entry_id && e.organization_id == org_id) })

/-- Step 3 of `start_timer`/`create_manual_entry`: with a task id given, fail
when the task is missing from the org or belongs to another project. -/
def task_check_fails (tasks : List Task) (projects : List Project) (task_id : Option Nat)
    (project_id org_id : Nat) : Bool :=
  match task_id with
  | none => false
  | some tid =>
    match task_get tasks projects tid org_id with
    | none => true
    | some t => !(t.project_id == project_id)

/-- The per-id tag validation loop of the service: first id not resolving to a
tag of the organization, if any. -/
def first_missing_tag (tags : List Tag) (tag_ids : List Nat) (org_id : Nat) : Option Nat :=
  tag_ids.find? (fun tid => (tag_get tags tid org_id).isNone)

/-- `TimeTrackingService.start_timer(user, data)` at wall-clock `now`; the
database-generated primary key is passed as `new_id`. -/
def start_timer (store : Store) (user : UserData) (data : TimeEntryStart) (now : Int)
    (new_id : Nat) : Except (ApiError × Store) (TimeEntry × Store) :=
  let org_id := user.organization_id
  if (get_running_entry store.entries user.id org_id).isSome then
    .error (.conflict "You already have a running timer. Stop it first.", store)
  else if (project_get store.projects data.project_id org_id).isNone then
    .error (.notFound "Project not found", store)
  else if task_check_fails store.tasks store.projects data.task_id data.project_id org_id then
    .error (.notFound "Task not found or doesn't belong to project", store)
  else
    match first_missing_tag store.tags data.tag_ids org_id with
    | some tid => .error (.notFound ("Tag not found: " ++ toString tid), store)
    | none =>
      repo_create store user.id data.project_id data.task_id org_id now none true
        data.is_billable data.description
        (if data.tag_ids.isEmpty then none else some data.tag_ids) new_id

/-- `TimeTrackingService.stop_timer(user, entry_id)` at wall-clock `now`. -/
def stop_timer (store : Store) (user : UserData) (entry_id : Nat) (now : Int) :
    Except (ApiError × Store) (TimeEntry × Store) :=
  let org_id := user.organization_id
  match get_by_id store.entries entry_id org_id with
  | none => .error (.notFound "Time entry not found", store)
  | some entry =>
    if !(entry.user_id == user.id) then
      .error (.forbidden "You can only stop your own timers", store)
    else if !entry.is_running then
      .error (.badRequest "Timer is already stopped", store)
    else
      match repo_stop_timer store.entries entry_id now with
      | none => .error (.doesNotExist "TimeEntry matching query does not exist", store)
      | some (e2, es) => .ok (e2, { store with entries := es })

/-- `TimeTrackingService.create_manual_entry(user, data)` at wall-clock `now`. -/
def create_manual_entry (store : Store) (user : UserData) (data : TimeEntryCreate)
    (now : Int) (new_id : Nat) : Except (ApiError × Store) (TimeEntry × Store) :=
  let org_id := user.organization_id
  if data.end_time ≤ data.start_time then
    .error (.badRequest "end_time must be after start_time", store)
  else if data.start_time > now || data.end_time > now then
    .error (.badRequest "Times cannot be in the future", store)
  else if check_overlap store.entries user.id data.start_time data.end_time none then
    .error (.badRequest "Time entry overlaps with existing entry or running timer", store)
  else if (project_get store.projects data.project_id org_id).isNone then
    .error (.notFound "Project not found", store)
  else if task_check_fails store.tasks store.projects data.task_id data.project_id org_id then
    .error (.notFound "Task not found or doesn't belong to project", store)
  else
    match first_missing_tag store.tags data.tag_ids org_id with
    | some tid => .error (.notFound ("Tag not found: " ++ toString tid), store)
    | none =>
      repo_create store user.id data.project_id data.task_id org_id data.start_time
        (some data.end_time) false data.is_billable data.description
        (if data.tag_ids.isEmpty then none else some data.tag_ids) new_id

/-- Step 5 of `update_entry`: `update_dict.get('start_time', entry['start_time'])`. -/
def newStart (entry : TimeEntry) (data : TimeEntryUpdate) : Option Int :=
  match data.start_time with
  | some v => v
  | none => some entry.start_time

/-- Step 5 of `update_entry`: `update_dict.get('end_time', entry['end_time'])`. -/
def newEnd (entry : TimeEntry) (data : TimeEntryUpdate) : Option Int :=
  match data.end_time with
  | some v => v
  | none => entry.end_time

/-- Step 8 of `update_entry`: `update_dict.get('project_id', entry['project_id'])`. -/
def effProject (entry : TimeEntry) (data : TimeEntryUpdate) : Option Nat :=
  match data.project_id with
  | some v => v
  | none => some entry.project_id

/-- Step 5 of `update_entry`: `if new_end and new_start >= new_end` — when an
end remains, a patched-to-null start makes Python compare `None` with a
datetime (`TypeError`), otherwise a non-positive span is a BadRequest. -/
def step5_check (entry : TimeEntry) (data : TimeEntryUpdate) : Option ApiError :=
  match newEnd entry data, newStart entry data with
  | some _, none => some (.typeError "unorderable types: NoneType and datetime")
  | some ne, some ns =>
    if ns ≥ ne then some (.badRequest "start_time must be before end_time") else none
  | none, _ => none

/-- Step 6 of `update_entry`: overlap check, run only when a time key was
touched and only if an end remains. -/
def step6_check (entries : List TimeEntry) (entry : TimeEntry) (entry_id : Nat)
    (data : TimeEntryUpdate) : Option ApiError :=
  if data.start_time.isSome || data.end_time.isSome then
    match newEnd entry data, newStart entry data with
    | some ne, some ns =>
      if check_overlap entries entry.user_id ns ne (some entry_id) then
        some (.badRequest "Updated times overlap with existing entry or running timer")
      else none
    | _, _ => none
  else none

/-- Step 7 of `update_entry`: a present `project_id` key must resolve in the
org (an explicit null is looked up as the string "None" and never resolves). -/
def step7_bad (projects : List Project) (data : TimeEntryUpdate) (org_id : Nat) : Bool :=
  match data.project_id with
  | none => false
  | some none => true
  | some (some pid) => (project_get projects pid org_id).isNone

/-- Step 8 of `update_entry`: a present non-null `task_id` must resolve in the
org to a task of the effective project. -/
def step8_bad (tasks : List Task) (projects : List Project) (entry : TimeEntry)
    (data : TimeEntryUpdate) (org_id : Nat) : Bool :=
  match data.task_id with
  | some (some tid) =>
    match task_get tasks projects tid org_id with
    | none => true
    | some t => !(some t.project_id == effProject entry data)
  | _ => false

/-- Step 9 of `update_entry`: validate each id of a present non-null non-empty
`tag_ids` list, reporting the first missing one. -/
def step9_missing (tags : List Tag) (data : TimeEntryUpdate) (org_id : Nat) : Option Nat :=
  match data.tag_ids with
  | some (some tids) =>
    if tids.isEmpty then none else first_missing_tag tags tids org_id
  | _ => none

/-- `TimeTrackingService.update_entry(user, entry_id, data)`. -/
def update_entry (store : Store) (user : UserData) (entry_id : Nat)
    (data : TimeEntryUpdate) : Except (ApiError × Store) (TimeEntry × Store) :=
  let org_id := user.organization_id
  match get_by_id store.entries entry_id org_id with
  | none => .error (.notFound "Time entry not found", store)
  | some entry =>
    if user.role == "worker" && !(entry.user_id == user.id) then
      .error (.forbidden "You can only edit your own time entries", store)
    else if entry.is_running && (data.start_time.isSome || data.end_time.isSome) then
      .error (.badRequest "Cannot update times of running timer. Stop it first.", store)
    else
      match step5_check entry data with
      | some err => .error (err, store)
      | none =>
        match step6_check store.entries entry entry_id data with
        | some err => .error (err, store)
        | none =>
          if step7_bad store.projects data org_id then
            .error (.notFound "Project not found", store)
          else if step8_bad store.tasks store.projects entry data org_id then
            .error (.notFound "Task not found or doesn't belong to project", store)
          else
            match step9_missing store.tags data org_id with
            | some tid => .error (.notFound ("Tag not found: " ++ toString tid), store)
            | none =>
              match repo_update store entry_id org_id data with
              | .error es => .error es
              | .ok (none, st) => .error (.notFound "Time entry not found", st)
              | .ok (some e2, st) => .ok (e2, st)

/-- `TimeTrackingService.delete_entry(user, entry_id)`. -/
def delete_entry (store : Store) (user : UserData) (entry_id : Nat) :
    Except (ApiError × Store) (Bool × Store) :=
  let org_id := user.organization_id
  match get_by_id store.entries entry_id org_id with
  | none => .error (.notFound "Time entry not found", store)
  | some entry =>
    if user.role == "worker" && !(entry.user_id == user.id) then
      .error (.forbidden "You can only delete your own time entries", store)
    else
      match repo_delete store entry_id org_id with
      | (false, st) => .error (.notFound "Time entry not found", st)
      | (true, st) => .ok (true, st)

/-- Filter dict passed from `list_entries` to `TimeEntryRepository.list`
(a key is present only when the service added it, and the service only adds
truthy values -- so `Option` captures the `in filters and filters[...]`
tests of the repository). -/
structure ListFilters where
  user_id : Option Nat
  project_id : Option Nat
  task_id : Option Nat
  is_billable : Option Bool
  is_running : Option Bool
  start_date : Option Int
  end_date : Option Int
  tag_ids : Option (List Nat)
deriving Repr, DecidableEq

/-- `datetime.combine(d, datetime.min.time())` for day index `d`. -/
def dayStart (d : Int) : Int := d * 86400

/-- `datetime.combine(d, datetime.max.time())` for day index `d`. -/
def dayEnd (d : Int) : Int := d * 86400 + 86399

/-- The WHERE clause assembled by `TimeEntryRepository.list`. -/
def entry_matches (f : ListFilters) (org_id : Nat) (e : TimeEntry) : Bool :=
  e.organization_id == org_id
  && (match f.user_id with | some u => e.user_id == u | none => true)
  && (match f.project_id with | some p => e.project_id == p | none => true)
  && (match f.task_id with | some t => e.task_id == some t | none => true)
  && (match f.is_billable with | some b => e.is_billable == b | none => true)
  && (match f.is_running with | some r => e.is_running == r | none => true)
  && (match f.start_date with | some d => decide (dayStart d ≤ e.start_time) | none => true)
  && (match f.end_date with | some d => decide (e.start_time ≤ dayEnd d) | none => true)
  && (match f.tag_ids with
      | some l => l.isEmpty || e.tags.any (fun t => l.contains t)
      | none => true)

/-- `TimeEntryRepository.list(org_id, filters, limit, offset)`: filtered count,
then `ORDER BY start_time DESC OFFSET ... LIMIT ...`. -/
def repo_list (entries : List TimeEntry) (org_id : Nat) (f : ListFilters)
    (limit offset : Nat) : List TimeEntry × Nat :=
  let filtered := entries.filter (entry_matches f org_id)
  let ordered := filtered.mergeSort (fun a b => decide (b.start_time ≤ a.start_time))
  ((ordered.drop offset).take limit, filtered.length)

/-- Response shape of `TimeTrackingService.list_entries`. -/
structure ListResult where
  items : List TimeEntry
  total : Nat
  limit : Nat
  offset : Nat
deriving Repr, DecidableEq

/-- Python truthiness of an optional list argument (`if tag_ids:`). -/
def truthy_list (l : Option (List Nat)) : Option (List Nat) :=
  match l with
  | some xs => if xs.isEmpty then none else some xs
  | none => none

/-- `TimeTrackingService.list_entries(user, ...)`. -/
def list_entries (store : Store) (user : UserData) (project_id task_id : Option Nat)
    (is_billable : Option Bool) (user_id : Option Nat) (start_date end_date : Option Int)
    (is_running : Option Bool) (tag_ids : Option (List Nat)) (limit offset : Nat) :
    Except (ApiError × Store) (ListResult × Store) :=
  let org_id := user.organization_id
  if user.role == "worker" then
    if user_id.isSome && !(user_id == some user.id) then
      .error (.forbidden "You can only view your own time entries", store)
    else
      let f : ListFilters :=
        { user_id := some user.id, project_id := project_id, task_id := task_id
          is_billable := is_billable, is_running := is_running
          start_date := start_date, end_date := end_date
          tag_ids := truthy_list tag_ids }
      let r := repo_list store.entries org_id f limit offset
      .ok ({ items := r.1, total := r.2, limit := limit, offset := offset }, store)
  else
    match user_id with
    | some uid =>
      match user_get store.users uid with
      | none => .error (.notFound "User not found", store)
      | some filter_user =>
        if !(filter_user.organization_id == org_id) then
          .error (.notFound "User not found", store)
        else
          let f : ListFilters :=
            { user_id := some uid, project_id := project_id, task_id := task_id
              is_billable := is_billable, is_running := is_running
              start_date := start_date, end_date := end_date
              tag_ids := truthy_list tag_ids }
          let r := repo_list store.entries org_id f limit offset
          .ok ({ items := r.1, total := r.2, limit := limit, offset := offset }, store)
    | none =>
      let f : ListFilters :=
        { user_id := none, project_id := project_id, task_id := task_id
          is_billable := is_billable, is_running := is_running
          start_date := start_date, end_date := end_date
          tag_ids := truthy_list tag_ids }
      let r := repo_list store.entries org_id f limit offset
      .ok ({ items := r.1, total := r.2, limit := limit, offset := offset }, store)

/-- `ProjectAggregateData` report rows (never persisted). -/
structure ProjectAggregate where
  project_id : Nat
  project_name : String
  total_seconds : Int
  billable_seconds : Int
deriving Repr, DecidableEq

/-- Prefetched `entry.project.name` (the FK guarantees the project exists). -/
def project_name_of (projects : List Project) (pid : Nat) : String :=
  match projects.find? (fun p => p.id == pid) with
  | some p => p.name
  | none => ""

/-- Loop body of `aggregate_by_project`: skip entries without both timestamps,
then add the duration into the per-project accumulator (a Python dict keyed by
project id, here an association list in insertion order). -/
def agg_step (projects : List Project) (acc : List ProjectAggregate) (e : TimeEntry) :
    List ProjectAggregate :=
  match e.end_time with
  | none => acc
  | some et =>
    let dur := et - e.start_time
    let pid := e.project_id
    if acc.any (fun a => a.project_id == pid) then
      acc.map (fun a =>
        if a.project_id == pid then
          { a with total_seconds := a.total_seconds + dur
                   billable_seconds := a.billable_seconds + (if e.is_billable then dur else 0) }
        else a)
    else
      acc ++ [{ project_id := pid, project_name := project_name_of projects pid
                total_seconds := dur
                billable_seconds := if e.is_billable then dur else 0 }]

/-- The SELECT feeding `aggregate_by_project`: org-scoped completed entries,
optionally restricted by user and by the start-date window. -/
def agg_query (entries : List TimeEntry) (org_id : Nat) (user_id : Option Nat)
    (start_date end_date : Option Int) : List TimeEntry :=
  entries.filter (fun e =>
    e.organization_id == org_id && !e.is_running
    && (match user_id with | some u => e.user_id == u | none => true)
    && (match start_date with | some d => decide (dayStart d ≤ e.start_time) | none => true)
    && (match end_date with | some d => decide (e.start_time ≤ dayEnd d) | none => true))

/-- `TimeEntryRepository.aggregate_by_project(org_id, user_id, start_date,
end_date)`: group completed entries by project, then
`sorted(..., key=total_seconds, reverse=True)`. -/
def aggregate_by_project (store : Store) (org_id : Nat) (user_id : Option Nat)
    (start_date end_date : Option Int) : List ProjectAggregate :=
  let q := agg_query store.entries org_id user_id start_date end_date
  (q.foldl (agg_step store.projects) []).mergeSort
    (fun a b => decide (b.total_seconds ≤ a.total_seconds))

/-- The methods the `TimeTrackingService` class actually defines. -/
def timeTrackingServiceMethodNames : List String :=
  ["start_timer", "stop_timer", "get_running_timer", "create_manual_entry",
   "list_entries", "get_entry", "update_entry", "delete_entry"]

/-- Outcome of running a route handler whose body performs a Python attribute
lookup before anything else. -/
inductive HandlerResult (α : Type) where
  | ok (value : α)
  | attributeError (detail : String)
deriving Repr, DecidableEq

/-- Body of the `GET /reports/projects` handler in `app/api/v1/reports.py`:
it awaits `time_tracking_service.get_project_aggregates(...)`, so Python first
resolves that attribute on the service object; only if the class defined such
a method could any repository code run (there is no such method, so the `ok`
branch has no implementation to dispatch to and is modelled as empty). -/
def get_project_aggregates_route (store : Store) (current_user : UserData)
    (start_date end_date : Option Int) (user_id : Option Nat) :
    HandlerResult (List ProjectAggregate) :=
  if timeTrackingServiceMethodNames.contains "get_project_aggregates" then
    .ok []
  else
    .attributeError
      "'TimeTrackingService' object has no attribute 'get_project_aggregates'"

/-- The five lifecycle operations of the service, with the wall-clock instant
and database-generated id each execution consumes. -/
inductive LifecycleOp where
  | startTimerOp (user : UserData) (data : TimeEntryStart) (now : Int) (new_id : Nat)
  | stopTimerOp (user : UserData) (entry_id : Nat) (now : Int)
  | createManualOp (user : UserData) (data : TimeEntryCreate) (now : Int) (new_id : Nat)
  | updateEntryOp (user : UserData) (entry_id : Nat) (patch : TimeEntryUpdate)
  | deleteEntryOp (user : UserData) (entry_id : Nat)

/-- Store left behind by a service call (errors carry their store too). -/
def stateOf {α : Type} : Except (ApiError × Store) (α × Store) → Store
  | .error (_, st) => st
  | .ok (_, st) => st

/-- Execute one lifecycle operation against the store. -/
def applyOp (store : Store) : LifecycleOp → Store
  | .startTimerOp u d now nid => stateOf (start_timer store u d now nid)
  | .stopTimerOp u eid now => stateOf (stop_timer store u eid now)
  | .createManualOp u d now nid => stateOf (create_manual_entry store u d now nid)
  | .updateEntryOp u eid patch => stateOf (update_entry store u eid patch)
  | .deleteEntryOp u eid => stateOf (delete_entry store u eid)

/-- Principal executing the operation. -/
def opUser : LifecycleOp → UserData
  | .startTimerOp u _ _ _ => u
  | .stopTimerOp u _ _ => u
  | .createManualOp u _ _ _ => u
  | .updateEntryOp u _ _ => u
  | .deleteEntryOp u _ => u

/-- Wall-clock instant the operation reads, when it reads one. -/
def opNow : LifecycleOp → Option Int
  | .startTimerOp _ _ now _ => some now
  | .stopTimerOp _ _ now => some now
  | .createManualOp _ _ now _ => some now
  | .updateEntryOp _ _ _ => none
  | .deleteEntryOp _ _ => none

/-- Primary-key uniqueness of the `time_entries` table. -/
abbrev uniqueIds (l : List TimeEntry) : Prop := (l.map TimeEntry.id).Nodup

/-- Multi-tenancy consistency for a principal: every entry of that user sits
in the user's organization. -/
abbrev userOrgConsistent (l : List TimeEntry) (u : UserData) : Prop :=
  ∀ e ∈ l, e.user_id = u.id → e.organization_id = u.organization_id

/-- Every completed entry ends no later than instant `t` (the `getD t` makes
an absent `end_time` vacuously fine and keeps the predicate decidable). -/
abbrev completedInPast (l : List TimeEntry) (t : Int) : Prop :=
  ∀ e ∈ l, e.is_running = false → e.end_time.getD t ≤ t

/-- Effective interval of an entry: `[start, +inf)` while running,
`[start_time, end_time)` when completed, and no interval at all for the
anomalous completed-without-end state. -/
def effectiveInterval (e : TimeEntry) : Option (Int × Option Int) :=
  if e.is_running then some (e.start_time, none)
  else
    match e.end_time with
    | some t => some (e.start_time, some t)
    | none => none

/-- Nonempty intersection of two (possibly right-unbounded, possibly absent)
half-open intervals: `max` of the starts must lie below both right ends. -/
def intervalsIntersect : Option (Int × Option Int) → Option (Int × Option Int) → Bool
  | some (s1, e1), some (s2, e2) =>
    (match e1 with | none => true | some t => decide (max s1 s2 < t)) &&
    (match e2 with | none => true | some t => decide (max s1 s2 < t))
  | _, _ => false

/-- Two entries have intersecting effective intervals. -/
def entriesOverlap (a b : TimeEntry) : Bool :=
  intervalsIntersect (effectiveInterval a) (effectiveInterval b)

/-- Overlap-freeness for user `u`: no two distinct entries of `u` have
intersecting effective intervals. -/
abbrev overlapFree (u : Nat) (l : List TimeEntry) : Prop :=
  l.Pairwise (fun a b => a.user_id = u → b.user_id = u → entriesOverlap a b = false)

/-- Invariant #1 of the data model: `is_running` iff `end_time IS NULL`. -/
abbrev isRunningConsistent (l : List TimeEntry) : Prop :=
  ∀ e ∈ l, e.is_running = e.end_time.isNone

/-- One entry respects invariant #5 of the data model: a set task id must
resolve, in the entry's organization, to a task whose project is the entry's
project. -/
def taskOk (store : Store) (e : TimeEntry) : Bool :=
  match e.task_id with
  | none => true
  | some t =>
    match task_get store.tasks store.projects t e.organization_id with
    | none => false
    | some tk => tk.project_id == e.project_id

/-- Invariant #5 of the data model for the whole table. -/
abbrev taskConsistent (store : Store) : Prop :=
  ∀ e ∈ store.entries, taskOk store e = true

/-- C10: the reports route fails before it can reach the repository. -/
theorem C10_reports_route_attribute_error (store : Store) (current_user : UserData)
    (start_date end_date : Option Int) (user_id : Option Nat) :
    get_project_aggregates_route store current_user start_date end_date user_id =
      .attributeError
        "'TimeTrackingService' object has no attribute 'get_project_aggregates'" ∧
    timeTrackingServiceMethodNames.contains "get_project_aggregates" = false := by
  constructor
  · rfl
  · rfl

/-- C3: under `start < end`, `check_overlap` returns true iff some entry of
the user, other than the excluded one, is running with `start_time < end`, or
completed with `start_time < end` and `end_time > start`.  (In the embedding
it is a pure function of the entry table, so it has no side effects.) -/
theorem C3_check_overlap_iff (entries : List TimeEntry) (u : Nat) (s e : Int)
    (excl : Option Nat) (hlt : s < e) :
    check_overlap entries u s e excl = true ↔
      ∃ ent ∈ entries, ent.user_id = u ∧ (∀ x, excl = some x → ent.id ≠ x) ∧
        ((ent.is_running = true ∧ ent.start_time < e) ∨
         (ent.is_running = false ∧ ent.start_time < e ∧
           ∃ et, ent.end_time = some et ∧ et > s)) := by
  unfold check_overlap
  cases excl with
  | none =>
    simp only [List.any_eq_true, List.mem_filter]
    constructor
    · rintro ⟨ent, ⟨hmem, huser⟩, hcond⟩
      refine ⟨ent, hmem, by simpa using huser, by simp, ?_⟩
      rcases Bool.or_eq_true_iff.mp hcond with h1 | h2
      · rcases Bool.and_eq_true_iff.mp h1 with ⟨hr, hs⟩
        exact Or.inl ⟨hr, by simpa using hs⟩
      · rcases Bool.and_eq_true_iff.mp h2 with ⟨h12, h3⟩
        rcases Bool.and_eq_true_iff.mp h12 with ⟨hr, hs⟩
        refine Or.inr ⟨by simpa using hr, by simpa using hs, ?_⟩
        cases het : ent.end_time with
        | none => rw [het] at h3; cases h3
        | some et =>
          rw [het] at h3
          exact ⟨et, rfl, by simpa using h3⟩
    · rintro ⟨ent, hmem, huser, _, hcond⟩
      refine ⟨ent, ⟨hmem, by simpa using huser⟩, ?_⟩
      rcases hcond with ⟨hr, hs⟩ | ⟨hr, hs, et, het, hgt⟩
      · exact Bool.or_eq_true_iff.mpr (Or.inl (by simp [hr, hs]))
      · exact Bool.or_eq_true_iff.mpr (Or.inr (by simp [hr, hs, het, hgt]))
  | some x =>
    simp only [List.any_eq_true, List.mem_filter]
    constructor
    · rintro ⟨ent, ⟨⟨hmem, huser⟩, hne⟩, hcond⟩
      refine ⟨ent, hmem, by simpa using huser, ?_, ?_⟩
      · intro y hy
        cases hy
        simpa using hne
      · rcases Bool.or_eq_true_iff.mp hcond with h1 | h2
        · rcases Bool.and_eq_true_iff.mp h1 with ⟨hr, hs⟩
          exact Or.inl ⟨hr, by simpa using hs⟩
        · rcases Bool.and_eq_true_iff.mp h2 with ⟨h12, h3⟩
          rcases Bool.and_eq_true_iff.mp h12 with ⟨hr, hs⟩
          refine Or.inr ⟨by simpa using hr, by simpa using hs, ?_⟩
          cases het : ent.end_time with
          | none => rw [het] at h3; cases h3
          | some et =>
            rw [het] at h3
            exact ⟨et, rfl, by simpa using h3⟩
    · rintro ⟨ent, hmem, huser, hexcl, hcond⟩
      refine ⟨ent, ⟨⟨hmem, by simpa using huser⟩, by simpa using hexcl x rfl⟩, ?_⟩
      rcases hcond with ⟨hr, hs⟩ | ⟨hr, hs, et, het, hgt⟩
      · exact Bool.or_eq_true_iff.mpr (Or.inl (by simp [hr, hs]))
      · exact Bool.or_eq_true_iff.mpr (Or.inr (by simp [hr, hs, het, hgt]))

/-- A completed entry over `[100, 200)` for user 1, used as concrete data. -/
def exCompletedEntry : TimeEntry :=
  { id := 7, user_id := 1, project_id := 100, task_id := none,
    organization_id := 10, start_time := 100, end_time := some 200,
    is_running := false, is_billable := true, description := none, tags := [] }

/-- Concrete instantiation of `C3_check_overlap_iff`: the existing completed
entry over `[100, 200)` overlaps a candidate `[50, 250)`. -/
theorem C3_check_overlap_iff_witness :
    ((50 : Int) < 250) ∧
    (check_overlap [exCompletedEntry] 1 50 250 none = true ↔
      ∃ ent ∈ [exCompletedEntry], ent.user_id = 1 ∧
        (∀ x, (none : Option Nat) = some x → ent.id ≠ x) ∧
        ((ent.is_running = true ∧ ent.start_time < 250) ∨
         (ent.is_running = false ∧ ent.start_time < 250 ∧
           ∃ et, ent.end_time = some et ∧ et > 50))) :=
  ⟨by decide, C3_check_overlap_iff [exCompletedEntry] 1 50 250 none (by decide)⟩

/-- A successful `repo_create` appends exactly one row carrying the requested
fields and touches nothing else. -/
theorem repo_create_ok_spec (store : Store) (uid pid : Nat) (tid : Option Nat) (org : Nat)
    (stt : Int) (ent : Option Int) (ir ib : Bool) (desc : Option String)
    (tags : Option (List Nat)) (nid : Nat) (e : TimeEntry) (st : Store)
    (h : repo_create store uid pid tid org stt ent ir ib desc tags nid = .ok (e, st)) :
    st.entries = store.entries ++ [e] ∧ e.id = nid ∧ e.user_id = uid ∧ e.project_id = pid ∧
    e.task_id = tid ∧ e.organization_id = org ∧ e.start_time = stt ∧ e.end_time = ent ∧
    e.is_running = ir ∧ e.is_billable = ib ∧ e.description = desc ∧
    st.projects = store.projects ∧ st.tasks = store.tasks ∧ st.tags = store.tags ∧
    st.users = store.users := by
  simp only [repo_create] at h
  split at h
  · simp only [Except.ok.injEq, Prod.mk.injEq] at h
    obtain ⟨rfl, rfl⟩ := h.symm
    simp
  · split at h
    · simp only [Except.ok.injEq, Prod.mk.injEq] at h
      obtain ⟨rfl, rfl⟩ := h.symm
      simp
    · split at h
      · simp only [Except.ok.injEq, Prod.mk.injEq] at h
        obtain ⟨rfl, rfl⟩ := h.symm
        simp
      · cases h

/-- A failing `repo_create` only ever raises the tag-validation `ValueError`
(still leaving the freshly inserted row behind). -/
theorem repo_create_error_spec (store : Store) (uid pid : Nat) (tid : Option Nat) (org : Nat)
    (stt : Int) (ent : Option Int) (ir ib : Bool) (desc : Option String)
    (tags : Option (List Nat)) (nid : Nat) (err : ApiError) (st : Store)
    (h : repo_create store uid pid tid org stt ent ir ib desc tags nid = .error (err, st)) :
    err = .valueError "Tags not found in organization" ∧
    ∃ e : TimeEntry, st.entries = store.entries ++ [e] ∧ e.id = nid ∧ e.user_id = uid ∧
      e.project_id = pid ∧ e.task_id = tid ∧ e.organization_id = org ∧ e.start_time = stt ∧
      e.end_time = ent ∧ e.is_running = ir ∧ e.is_billable = ib ∧ e.description = desc ∧
      st.projects = store.projects ∧ st.tasks = store.tasks ∧ st.tags = store.tags ∧
      st.users = store.users := by
  simp only [repo_create] at h
  split at h
  · cases h
  · split at h
    · cases h
    · split at h
      · cases h
      · simp only [Except.error.injEq, Prod.mk.injEq] at h
        obtain ⟨rfl, rfl⟩ := h.symm
        exact ⟨rfl, _, rfl, by simp⟩

/-- C4: `start_timer` fails with Conflict exactly when the principal already
has a running entry in their organization (with the stop-it-first message),
and on success it appends exactly one new running entry starting at `now`
with no `end_time`, mutating no other row. -/
theorem C4_start_timer_spec (store : Store) (u : UserData) (d : TimeEntryStart)
    (now : Int) (nid : Nat) :
    ((∃ e ∈ store.entries, e.user_id = u.id ∧ e.organization_id = u.organization_id ∧
        e.is_running = true) →
      start_timer store u d now nid =
        .error (.conflict "You already have a running timer. Stop it first.", store)) ∧
    ((¬ ∃ e ∈ store.entries, e.user_id = u.id ∧ e.organization_id = u.organization_id ∧
        e.is_running = true) →
      ∀ msg st, start_timer store u d now nid ≠ .error (.conflict msg, st)) ∧
    (∀ e st, start_timer store u d now nid = .ok (e, st) →
      st.entries = store.entries ++ [e] ∧ e.start_time = now ∧ e.end_time = none ∧
      e.is_running = true ∧ e.user_id = u.id ∧ e.organization_id = u.organization_id ∧
      st.projects = store.projects ∧ st.tasks = store.tasks ∧ st.tags = store.tags ∧
      st.users = store.users) := by
  have hrun : (get_running_entry store.entries u.id u.organization_id).isSome = true ↔
      ∃ e ∈ store.entries, e.user_id = u.id ∧ e.organization_id = u.organization_id ∧
        e.is_running = true := by
    unfold get_running_entry
    rw [List.find?_isSome]
    constructor
    · rintro ⟨e, hmem, hpred⟩
      simp only [Bool.and_eq_true, beq_iff_eq] at hpred
      exact ⟨e, hmem, hpred.1.1, hpred.1.2, hpred.2⟩
    · rintro ⟨e, hmem, h1, h2, h3⟩
      exact ⟨e, hmem, by simp [h1, h2, h3]⟩
  refine ⟨?_, ?_, ?_⟩
  · intro hex
    have hs : (get_running_entry store.entries u.id u.organization_id).isSome = true :=
      hrun.mpr hex
    simp [start_timer, hs]
  · intro hnex msg st
    have hfalse : (get_running_entry store.entries u.id u.organization_id).isSome = false := by
      cases hval : (get_running_entry store.entries u.id u.organization_id).isSome
      · rfl
      · exact absurd (hrun.mp hval) hnex
    simp only [start_timer, hfalse, Bool.false_eq_true, if_false]
    split
    · simp
    · split
      · simp
      · split
        · simp
        · intro hcontra
          rcases hcr : repo_create store u.id d.project_id d.task_id u.organization_id now
              none true d.is_billable d.description
              (if d.tag_ids.isEmpty then none else some d.tag_ids) nid with herr | hok2
          · obtain ⟨err2, st2⟩ := herr
            rw [hcr] at hcontra
            have hspec := (repo_create_error_spec _ _ _ _ _ _ _ _ _ _ _ _ _ _ hcr).1
            simp only [Except.error.injEq, Prod.mk.injEq] at hcontra
            rw [hcontra.1] at hspec
            exact ApiError.noConfusion hspec
          · obtain ⟨e2, st2⟩ := hok2
            rw [hcr] at hcontra
            cases hcontra
  · intro e st hok
    simp only [start_timer] at hok
    split at hok
    · cases hok
    · split at hok
      · cases hok
      · split at hok
        · cases hok
        · split at hok
          · cases hok
          · obtain ⟨h1, h2, h3, h4, h5, h6, h7, h8, h9, h10, h11, h12, h13, h14, h15⟩ :=
              repo_create_ok_spec _ _ _ _ _ _ _ _ _ _ _ _ _ _ hok
            exact ⟨h1, h7, h8, h9, h3, h6, h12, h13, h14, h15⟩

/-- Principal reused by the concrete scenarios: a worker of organization 10. -/
def exWorker : UserData := { id := 1, role := "worker", organization_id := 10, is_active := true }

/-- A second principal: a boss of the same organization. -/
def exBoss : UserData := { id := 2, role := "boss", organization_id := 10, is_active := true }

/-- Project 100 of organization 10. -/
def exProject : Project := { id := 100, organization_id := 10, name := "Website" }

/-- Project 101 of organization 10. -/
def exProject2 : Project := { id := 101, organization_id := 10, name := "Backend" }

/-- Task 200 belonging to project 100. -/
def exTask : Task := { id := 200, project_id := 100 }

/-- A running entry of user 1 started at 1000. -/
def exRunningEntry : TimeEntry :=
  { id := 8, user_id := 1, project_id := 100, task_id := none, organization_id := 10,
    start_time := 1000, end_time := none, is_running := true, is_billable := true,
    description := none, tags := [] }

/-- Timer-start request against project 100. -/
def exStart : TimeEntryStart :=
  { project_id := 100, task_id := none, is_billable := true, description := none,
    tag_ids := [] }

/-- Store in which user 1 already has a running timer. -/
def c4Store : Store :=
  { entries := [exRunningEntry], projects := [exProject], tasks := [], tags := [],
    users := [exWorker] }

/-- Concrete instantiation of `C4_start_timer_spec`: with a running timer in
place, a second `start_timer` call returns the Conflict error. -/
theorem C4_start_timer_spec_witness :
    start_timer c4Store exWorker exStart 2000 99 =
      .error (.conflict "You already have a running timer. Stop it first.", c4Store) :=
  (C4_start_timer_spec c4Store exWorker exStart 2000 99).1
    ⟨exRunningEntry, by decide, by decide, by decide, by decide⟩

/-- `find?` skips a prefix on which the predicate fails and stops at the first
hit. -/
theorem find?_prefix_cons {α : Type} (p : α → Bool) (as : List α) (x : α) (bs : List α)
    (h : ∀ a ∈ as, p a = false) (hx : p x = true) :
    List.find? p (as ++ x :: bs) = some x := by
  induction as with
  | nil => simp [List.find?_cons, hx]
  | cons a as ih =>
    have ha : p a = false := h a (by simp)
    simp only [List.cons_append, List.find?_cons, ha]
    exact ih (fun b hb => h b (by simp [hb]))

/-- With unique primary keys, an id determines the row. -/
theorem nodup_ids_eq {l : List TimeEntry} (hids : uniqueIds l) {X Z : TimeEntry}
    (hX : X ∈ l) (hZ : Z ∈ l) (h : Z.id = X.id) : Z = X :=
  List.inj_on_of_nodup_map hids hZ hX h

/-- Decompose an org-scoped fetch: the table splits around the fetched row,
every other row has a different id (by primary-key uniqueness), and writing a
replacement row back through the primary key rewrites exactly that slot. -/
theorem replace_row_state {l : List TimeEntry} {X : TimeEntry} {eid org : Nat}
    (hids : uniqueIds l) (hfind : get_by_id l eid org = some X) (e2 : TimeEntry) :
    ∃ as bs, l = as ++ X :: bs ∧ (∀ a, (a ∈ as ∨ a ∈ bs) → a.id ≠ eid) ∧
      l.map (fun x => if x.id == eid then e2 else x) = as ++ e2 :: bs ∧
      X.id = eid ∧ X.organization_id = org := by
  unfold get_by_id at hfind
  have hpred := List.find?_some hfind
  simp only [Bool.and_eq_true, beq_iff_eq] at hpred
  obtain ⟨hXid, hXorg⟩ := hpred
  have hmem := List.mem_of_find?_eq_some hfind
  obtain ⟨as, bs, hsplit⟩ := List.append_of_mem hmem
  have hnodup := hids
  rw [hsplit] at hnodup
  unfold uniqueIds at hnodup
  rw [List.map_append, List.map_cons] at hnodup
  have hnin := (List.nodup_cons.mp (List.nodup_middle.mp hnodup)).1
  have hne : ∀ a, (a ∈ as ∨ a ∈ bs) → a.id ≠ eid := by
    intro a ha hcontra
    apply hnin
    rw [List.mem_append]
    rcases ha with ha | ha
    · exact Or.inl (by rw [hXid, ← hcontra]; exact List.mem_map_of_mem TimeEntry.id ha)
    · exact Or.inr (by rw [hXid, ← hcontra]; exact List.mem_map_of_mem TimeEntry.id ha)
  refine ⟨as, bs, hsplit, hne, ?_, hXid, hXorg⟩
  rw [hsplit, List.map_append, List.map_cons]
  have has : as.map (fun x => if x.id == eid then e2 else x) = as := by
    rw [List.map_congr_left (g := id), List.map_id]
    intro a ha
    simp [hne a (Or.inl ha)]
  have hbs : bs.map (fun x => if x.id == eid then e2 else x) = bs := by
    rw [List.map_congr_left (g := id), List.map_id]
    intro a ha
    simp [hne a (Or.inr ha)]
  rw [has, hbs]
  simp [hXid]

/-- An org-scoped fetch on a split table whose prefix has no id hit returns
the middle row when it matches. -/
theorem get_by_id_of_split {as bs : List TimeEntry} {e2 : TimeEntry} {eid org : Nat}
    (hpre : ∀ a ∈ as, a.id ≠ eid) (hid : e2.id = eid) (horg : e2.organization_id = org) :
    get_by_id (as ++ e2 :: bs) eid org = some e2 := by
  unfold get_by_id
  apply find?_prefix_cons
  · intro a ha
    simp [hpre a ha]
  · simp [hid, horg]

/-- With unique ids, the primary-key fetch of `repo_stop_timer` lands on the
row the service already fetched org-scoped. -/
theorem find_by_id_eq {l : List TimeEntry} {X : TimeEntry} {eid : Nat}
    (hids : uniqueIds l) (hmem : X ∈ l) (hXid : X.id = eid) :
    l.find? (fun e => e.id == eid) = some X := by
  rcases h : l.find? (fun e => e.id == eid) with _ | Z
  · rw [List.find?_eq_none] at h
    exact absurd (by simp [hXid]) (h X hmem)
  · have hZ := List.find?_some h
    simp only [beq_iff_eq] at hZ
    have hZX := nodup_ids_eq hids hmem (List.mem_of_find?_eq_some h) (by rw [hZ, hXid])
    rw [h, hZX]

/-- C5: `stop_timer` is Forbidden for any non-owner (role notwithstanding),
BadRequest when the (owned) entry is already stopped, leaves the store intact
on every failure, and on success sets `end_time = now` and `is_running =
false` — after which a second `stop_timer` on the same entry fails BadRequest
and changes nothing. -/
theorem C5_stop_timer_spec (store : Store) (u : UserData) (eid : Nat) (now : Int)
    (hids : uniqueIds store.entries) :
    (∀ err st, stop_timer store u eid now = .error (err, st) → st = store) ∧
    (∀ X, get_by_id store.entries eid u.organization_id = some X →
      ((X.user_id ≠ u.id →
          stop_timer store u eid now =
            .error (.forbidden "You can only stop your own timers", store)) ∧
       (X.user_id = u.id → X.is_running = false →
          stop_timer store u eid now =
            .error (.badRequest "Timer is already stopped", store)) ∧
       (∀ e2 st, stop_timer store u eid now = .ok (e2, st) →
          e2.end_time = some now ∧ e2.is_running = false ∧ e2.user_id = X.user_id ∧
          stop_timer st u eid now =
            .error (.badRequest "Timer is already stopped", st)))) := by
  constructor
  · intro err st h
    simp only [stop_timer] at h
    split at h
    · simp only [Except.error.injEq, Prod.mk.injEq] at h
      exact h.2.symm
    · split at h
      · simp only [Except.error.injEq, Prod.mk.injEq] at h
        exact h.2.symm
      · split at h
        · simp only [Except.error.injEq, Prod.mk.injEq] at h
          exact h.2.symm
        · split at h
          · simp only [Except.error.injEq, Prod.mk.injEq] at h
            exact h.2.symm
          · cases h
  · intro X hX
    have hX2 := hX
    unfold get_by_id at hX2
    have hXmem : X ∈ store.entries := List.mem_of_find?_eq_some hX2
    have hXpred := List.find?_some hX2
    simp only [Bool.and_eq_true, beq_iff_eq] at hXpred
    refine ⟨?_, ?_, ?_⟩
    · intro hne
      have hb : (!(X.user_id == u.id)) = true := by simp [hne]
      simp [stop_timer, hX, hb]
    · intro heq hstop
      have hb : (!(X.user_id == u.id)) = false := by simp [heq]
      simp [stop_timer, hX, hb, hstop]
    · intro e2 st h
      have hfindZ : store.entries.find? (fun e => e.id == eid) = some X :=
        find_by_id_eq hids hXmem hXpred.1
      have hrepo : repo_stop_timer store.entries eid now =
          some (stopped_row X now,
            store.entries.map (fun x => if x.id == eid then stopped_row X now else x)) := by
        simp only [repo_stop_timer, hfindZ]
      simp only [stop_timer, hX, hrepo] at h
      split at h
      · cases h
      · split at h
        · cases h
        · rename_i howner hrunning
          simp only [Except.ok.injEq, Prod.mk.injEq] at h
          obtain ⟨he2, hst⟩ := h
          have howner2 : X.user_id = u.id := by simpa using howner
          subst he2
          subst hst
          refine ⟨rfl, rfl, rfl, ?_⟩
          obtain ⟨as, bs, hsplit, hne, hmap, hid, horg⟩ :=
            replace_row_state hids hX (stopped_row X now)
          have hget2 : get_by_id
              (store.entries.map (fun x => if x.id == eid then stopped_row X now else x))
              eid u.organization_id = some (stopped_row X now) := by
            rw [hmap]
            exact get_by_id_of_split (fun a ha => hne a (Or.inl ha)) hid horg
          simp only [stop_timer]
          rw [hget2]
          simp [stopped_row, howner2]

/-- Store with one completed and one running entry of user 1. -/
def c5Store : Store :=
  { entries := [exCompletedEntry, exRunningEntry], projects := [exProject], tasks := [],
    tags := [], users := [exWorker, exBoss] }

/-- Concrete instantiation of `C5_stop_timer_spec`: the boss (not the owner)
cannot stop user 1's running timer, whatever their role. -/
theorem C5_stop_timer_spec_witness :
    stop_timer c5Store exBoss 8 5000 =
      .error (.forbidden "You can only stop your own timers", c5Store) :=
  (((C5_stop_timer_spec c5Store exBoss 8 5000 (by decide)).2 exRunningEntry
      (by decide)).1) (by decide)

/-- Row stored by a successful `repo_update`: the `setattr`ed fields plus the
tag set (replaced when the `tag_ids` key was present and non-null, untouched
otherwise — `apply_patch_fields` already keeps the old tags). -/
def updated_row (entry : TimeEntry) (data : TimeEntryUpdate) : TimeEntry :=
  match data.tag_ids with
  | some (some tids) => { apply_patch_fields entry data with tags := tids }
  | _ => apply_patch_fields entry data

/-- Row left behind when `repo_update` clears the tag set and then the tag
validation raises: fields saved, tags gone. -/
def cleared_row (entry : TimeEntry) (data : TimeEntryUpdate) : TimeEntry :=
  { apply_patch_fields entry data with tags := [] }

/-- A successful `repo_update` on a fetched row stores `updated_row` and
returns it. -/
theorem repo_update_ok_spec (store : Store) (eid org : Nat) (data : TimeEntryUpdate)
    (entry : TimeEntry) (r : Option TimeEntry) (st : Store)
    (hfetch : get_by_id store.entries eid org = some entry)
    (h : repo_update store eid org data = .ok (r, st)) :
    patch_null_violation data = false ∧
    r = some (updated_row entry data) ∧
    st = { store with
      entries := save_entry store.entries eid (updated_row entry data) } := by
  simp only [repo_update, hfetch] at h
  split at h
  · cases h
  · rename_i hnull
    rw [Bool.not_eq_true] at hnull
    refine ⟨hnull, ?_⟩
    unfold updated_row
    split at h
    · rename_i htags
      rw [htags]
      simp only [Except.ok.injEq, Prod.mk.injEq] at h
      obtain ⟨h1, h2⟩ := h
      exact ⟨h1.symm, h2.symm⟩
    · rename_i htags
      rw [htags]
      simp only [Except.ok.injEq, Prod.mk.injEq] at h
      obtain ⟨h1, h2⟩ := h
      exact ⟨h1.symm, h2.symm⟩
    · rename_i tids htags
      rw [htags]
      split at h
      · rename_i hemp
        simp only [Except.ok.injEq, Prod.mk.injEq] at h
        obtain ⟨h1, h2⟩ := h
        rw [List.isEmpty_iff] at hemp
        subst hemp
        constructor
        · rw [← h1]
        · rw [← h2]
      · split at h
        · simp only [Except.ok.injEq, Prod.mk.injEq] at h
          obtain ⟨h1, h2⟩ := h
          exact ⟨h1.symm, h2.symm⟩
        · cases h

/-- A failing `repo_update` on a fetched row either rejects a null in a
non-nullable column before writing (store unchanged), or hits the tag
`ValueError` after the save and the tag clear (partial state persisted). -/
theorem repo_update_error_spec (store : Store) (eid org : Nat) (data : TimeEntryUpdate)
    (entry : TimeEntry) (err : ApiError) (st : Store)
    (hfetch : get_by_id store.entries eid org = some entry)
    (h : repo_update store eid org data = .error (err, st)) :
    st = store ∨
    st = { store with
      entries := save_entry store.entries eid (cleared_row entry data) } := by
  simp only [repo_update, hfetch] at h
  split at h
  · simp only [Except.error.injEq, Prod.mk.injEq] at h
    exact Or.inl h.2.symm
  · split at h
    · cases h
    · cases h
    · split at h
      · cases h
      · split at h
        · cases h
        · simp only [Except.error.injEq, Prod.mk.injEq] at h
          exact Or.inr h.2.symm

/-- A clean step-5 check forces the resolved start to exist and lie strictly
before any resolved end. -/
theorem step5_check_none {entry : TimeEntry} {data : TimeEntryUpdate}
    (h : step5_check entry data = none) :
    ∀ ne, newEnd entry data = some ne → ∃ ns, newStart entry data = some ns ∧ ns < ne := by
  intro ne hne
  rcases hns : newStart entry data with _ | ns
  · exfalso
    simp only [step5_check, hne, hns] at h
    exact Option.noConfusion h
  · refine ⟨ns, rfl, ?_⟩
    simp only [step5_check, hne, hns] at h
    split at h
    · cases h
    · rename_i hge
      omega

/-- A clean step-6 check means no overlap whenever a time key was touched and
an end remains. -/
theorem step6_check_none {entries : List TimeEntry} {entry : TimeEntry} {eid : Nat}
    {data : TimeEntryUpdate} (h : step6_check entries entry eid data = none)
    (htouch : (data.start_time.isSome || data.end_time.isSome) = true) :
    ∀ ns ne, newStart entry data = some ns → newEnd entry data = some ne →
      check_overlap entries entry.user_id ns ne (some eid) = false := by
  intro ns ne hns hne
  simp only [step6_check, htouch, if_true, hne, hns] at h
  split at h
  · cases h
  · rename_i hov
    cases hcv : check_overlap entries entry.user_id ns ne (some eid)
    · rfl
    · exact absurd hcv hov

/-- A clean step-8 check validates any present non-null task id against the
effective project. -/
theorem step8_bad_false {tasks : List Task} {projects : List Project} {entry : TimeEntry}
    {data : TimeEntryUpdate} {org : Nat}
    (h : step8_bad tasks projects entry data org = false) :
    ∀ t, data.task_id = some (some t) →
      ∃ tk, task_get tasks projects t org = some tk ∧
        some tk.project_id = effProject entry data := by
  intro t ht
  rcases htk : task_get tasks projects t org with _ | tk
  · exfalso
    simp only [step8_bad, ht, htk] at h
    exact Bool.noConfusion h
  · simp only [step8_bad, ht, htk] at h
    have h2 : (some tk.project_id == effProject entry data) = true := by simpa using h
    exact ⟨tk, rfl, by simpa using h2⟩

/-- Everything a successful `update_entry` guarantees: the entry was fetched
in the caller's org, authorization and the running-timer guard passed, the
temporal checks passed (resolved end after resolved start; overlap check clean
whenever a time key was touched and an end remains), a patched non-null task
id was validated against the effective project, and the store got exactly the
`updated_row` written through the primary key. -/
theorem update_entry_ok_spec (store : Store) (u : UserData) (eid : Nat)
    (data : TimeEntryUpdate) (e2 : TimeEntry) (st : Store)
    (h : update_entry store u eid data = .ok (e2, st)) :
    ∃ X, get_by_id store.entries eid u.organization_id = some X ∧
      (u.role = "worker" → X.user_id = u.id) ∧
      (X.is_running = true → data.start_time = none ∧ data.end_time = none) ∧
      patch_null_violation data = false ∧
      e2 = updated_row X data ∧
      st = { store with entries := save_entry store.entries eid (updated_row X data) } ∧
      (∀ ne, newEnd X data = some ne → ∃ ns, newStart X data = some ns ∧ ns < ne) ∧
      ((data.start_time.isSome || data.end_time.isSome) = true →
        ∀ ns ne, newStart X data = some ns → newEnd X data = some ne →
          check_overlap store.entries X.user_id ns ne (some eid) = false) ∧
      (∀ t, data.task_id = some (some t) →
        ∃ tk, task_get store.tasks store.projects t u.organization_id = some tk ∧
          some tk.project_id = effProject X data) := by
  simp only [update_entry] at h
  split at h
  · cases h
  · rename_i X hX
    refine ⟨X, hX, ?_⟩
    split at h
    · cases h
    · rename_i hauth
      split at h
      · cases h
      · rename_i hrun
        have hauth2 : u.role = "worker" → X.user_id = u.id := by
          intro hrole
          by_contra hne
          exact hauth (by simp [hrole, hne])
        have hrun2 : X.is_running = true → data.start_time = none ∧ data.end_time = none := by
          intro hr
          rw [Bool.not_eq_true, Bool.and_eq_false_iff] at hrun
          rcases hrun with hrun | hrun
          · rw [hr] at hrun; cases hrun
          · rw [Bool.or_eq_false_iff] at hrun
            exact ⟨Option.not_isSome_iff_eq_none.mp (by simp [hrun.1]),
              Option.not_isSome_iff_eq_none.mp (by simp [hrun.2])⟩
        split at h
        · cases h
        · rename_i hstep5
          split at h
          · cases h
          · rename_i hstep6
            split at h
            · cases h
            · rename_i hstep7
              split at h
              · cases h
              · rename_i hstep8
                rw [Bool.not_eq_true] at hstep8
                split at h
                · cases h
                · split at h
                  · cases h
                  · cases h
                  · rename_i e3 st2 hrepo
                    simp only [Except.ok.injEq, Prod.mk.injEq] at h
                    obtain ⟨h1, h2⟩ := h
                    obtain ⟨hnull, hrow, hst⟩ := repo_update_ok_spec _ _ _ _ _ _ _ hX hrepo
                    simp only [Option.some.injEq] at hrow
                    subst h1
                    subst h2
                    rw [hrow]
                    exact ⟨hauth2, hrun2, hnull, rfl, hst, step5_check_none hstep5,
                      fun ht => step6_check_none hstep6 ht, step8_bad_false hstep8⟩

/-- On every failing `update_entry` the store is either untouched or (only on
the post-save tag `ValueError`) holds the patched row with a cleared tag set;
in the latter case the patch had already passed the same guards as a success
would have. -/
theorem update_entry_error_spec (store : Store) (u : UserData) (eid : Nat)
    (data : TimeEntryUpdate) (err : ApiError) (st : Store)
    (h : update_entry store u eid data = .error (err, st)) :
    st = store ∨
    ∃ X, get_by_id store.entries eid u.organization_id = some X ∧
      (u.role = "worker" → X.user_id = u.id) ∧
      (X.is_running = true → data.start_time = none ∧ data.end_time = none) ∧
      st = { store with entries := save_entry store.entries eid (cleared_row X data) } ∧
      (∀ ne, newEnd X data = some ne → ∃ ns, newStart X data = some ns ∧ ns < ne) ∧
      ((data.start_time.isSome || data.end_time.isSome) = true →
        ∀ ns ne, newStart X data = some ns → newEnd X data = some ne →
          check_overlap store.entries X.user_id ns ne (some eid) = false) ∧
      (∀ t, data.task_id = some (some t) →
        ∃ tk, task_get store.tasks store.projects t u.organization_id = some tk ∧
          some tk.project_id = effProject X data) := by
  simp only [update_entry] at h
  split at h
  · simp only [Except.error.injEq, Prod.mk.injEq] at h
    exact Or.inl h.2.symm
  · rename_i X hX
    split at h
    · simp only [Except.error.injEq, Prod.mk.injEq] at h
      exact Or.inl h.2.symm
    · rename_i hauth
      split at h
      · simp only [Except.error.injEq, Prod.mk.injEq] at h
        exact Or.inl h.2.symm
      · rename_i hrun
        have hauth2 : u.role = "worker" → X.user_id = u.id := by
          intro hrole
          by_contra hne
          exact hauth (by simp [hrole, hne])
        have hrun2 : X.is_running = true → data.start_time = none ∧ data.end_time = none := by
          intro hr
          rw [Bool.not_eq_true, Bool.and_eq_false_iff] at hrun
          rcases hrun with hrun | hrun
          · rw [hr] at hrun; cases hrun
          · rw [Bool.or_eq_false_iff] at hrun
            exact ⟨Option.not_isSome_iff_eq_none.mp (by simp [hrun.1]),
              Option.not_isSome_iff_eq_none.mp (by simp [hrun.2])⟩
        split at h
        · simp only [Except.error.injEq, Prod.mk.injEq] at h
          exact Or.inl h.2.symm
        · rename_i hstep5
          split at h
          · simp only [Except.error.injEq, Prod.mk.injEq] at h
            exact Or.inl h.2.symm
          · rename_i hstep6
            split at h
            · simp only [Except.error.injEq, Prod.mk.injEq] at h
              exact Or.inl h.2.symm
            · split at h
              · simp only [Except.error.injEq, Prod.mk.injEq] at h
                exact Or.inl h.2.symm
              · rename_i hstep8
                rw [Bool.not_eq_true] at hstep8
                split at h
                · simp only [Except.error.injEq, Prod.mk.injEq] at h
                  exact Or.inl h.2.symm
                · split at h
                  · rename_i es hrepo
                    obtain ⟨err2, st2⟩ := es
                    simp only [Except.error.injEq, Prod.mk.injEq] at h
                    obtain ⟨rfl, rfl⟩ := h.symm
                    rcases repo_update_error_spec _ _ _ _ _ _ _ hX hrepo with hsame | hpart
                    · exact Or.inl hsame
                    · exact Or.inr ⟨X, hX, hauth2, hrun2, hpart,
                        step5_check_none hstep5, fun ht => step6_check_none hstep6 ht,
                        step8_bad_false hstep8⟩
                  · rename_i st2 hrepo
                    obtain ⟨hnull, hrow, hst⟩ := repo_update_ok_spec _ _ _ _ _ _ _ hX hrepo
                    cases hrow
                  · cases h

/-- C7: a successful `update_entry` with `tag_ids = []` (key present, empty)
clears all tags; with the `tag_ids` key absent it keeps the tag set exactly;
and every field whose key is absent from the patch is unchanged, as is every
other row of the store. -/
theorem C7_update_entry_tag_roundtrip (store : Store) (u : UserData) (eid : Nat)
    (data : TimeEntryUpdate) (e2 : TimeEntry) (st : Store) (X : TimeEntry)
    (hX : get_by_id store.entries eid u.organization_id = some X)
    (h : update_entry store u eid data = .ok (e2, st)) :
    (data.tag_ids = some (some []) → e2.tags = []) ∧
    (data.tag_ids = none → e2.tags = X.tags) ∧
    (data.project_id = none → e2.project_id = X.project_id) ∧
    (data.task_id = none → e2.task_id = X.task_id) ∧
    (data.start_time = none → e2.start_time = X.start_time) ∧
    (data.end_time = none → e2.end_time = X.end_time) ∧
    (data.is_billable = none → e2.is_billable = X.is_billable) ∧
    (data.description = none → e2.description = X.description) ∧
    e2.is_running = X.is_running ∧ e2.user_id = X.user_id ∧
    e2.organization_id = X.organization_id ∧ e2.id = X.id ∧
    st.entries = save_entry store.entries eid e2 ∧
    st.projects = store.projects ∧ st.tasks = store.tasks ∧ st.tags = store.tags ∧
    st.users = store.users := by
  obtain ⟨X2, hX2, hauth, hrunf, hnull, he2, hst, h5, h6, h8⟩ :=
    update_entry_ok_spec _ _ _ _ _ _ h
  rw [hX] at hX2
  injection hX2 with hXX
  subst hXX
  subst he2
  subst hst
  refine ⟨?_, ?_, ?_, ?_, ?_, ?_, ?_, ?_, ?_, ?_, ?_, ?_, rfl, rfl, rfl, rfl, rfl⟩
  · intro ht
    simp [updated_row, ht]
  · intro ht
    simp [updated_row, ht, apply_patch_fields]
  · intro ht
    rcases htg : data.tag_ids with _ | (_ | tids) <;>
      simp [updated_row, htg, apply_patch_fields, ht]
  · intro ht
    rcases htg : data.tag_ids with _ | (_ | tids) <;>
      simp [updated_row, htg, apply_patch_fields, ht]
  · intro ht
    rcases htg : data.tag_ids with _ | (_ | tids) <;>
      simp [updated_row, htg, apply_patch_fields, ht]
  · intro ht
    rcases htg : data.tag_ids with _ | (_ | tids) <;>
      simp [updated_row, htg, apply_patch_fields, ht]
  · intro ht
    rcases htg : data.tag_ids with _ | (_ | tids) <;>
      simp [updated_row, htg, apply_patch_fields, ht]
  · intro ht
    rcases htg : data.tag_ids with _ | (_ | tids) <;>
      simp [updated_row, htg, apply_patch_fields, ht]
  · rcases htg : data.tag_ids with _ | (_ | tids) <;>
      simp [updated_row, htg, apply_patch_fields]
  · rcases htg : data.tag_ids with _ | (_ | tids) <;>
      simp [updated_row, htg, apply_patch_fields]
  · rcases htg : data.tag_ids with _ | (_ | tids) <;>
      simp [updated_row, htg, apply_patch_fields]
  · rcases htg : data.tag_ids with _ | (_ | tids) <;>
      simp [updated_row, htg, apply_patch_fields]

/-- Tag 300 of organization 10. -/
def exTag : Tag := { id := 300, organization_id := 10 }

/-- Completed entry of user 1 carrying tag 300. -/
def exTaggedEntry : TimeEntry :=
  { id := 9, user_id := 1, project_id := 100, task_id := none, organization_id := 10,
    start_time := 100, end_time := some 200, is_running := false, is_billable := true,
    description := none, tags := [300] }

/-- Store holding the tagged entry. -/
def c7Store : Store :=
  { entries := [exTaggedEntry], projects := [exProject], tasks := [], tags := [exTag],
    users := [exWorker] }

/-- Patch whose only key is `tag_ids: []`. -/
def c7Patch : TimeEntryUpdate :=
  { project_id := none, task_id := none, start_time := none, end_time := none
    is_billable := none, description := none, tag_ids := some (some []) }

/-- Concrete instantiation of `C7_update_entry_tag_roundtrip`: the explicit
empty list clears the tag set, while the empty patch keeps it. -/
theorem C7_update_entry_tag_roundtrip_witness :
    (updated_row exTaggedEntry c7Patch).tags = [] ∧
    (updated_row exTaggedEntry emptyPatch).tags = exTaggedEntry.tags :=
  ⟨(C7_update_entry_tag_roundtrip c7Store exWorker 9 c7Patch
      (updated_row exTaggedEntry c7Patch)
      { c7Store with entries := save_entry c7Store.entries 9 (updated_row exTaggedEntry c7Patch) }
      exTaggedEntry (by decide) rfl).1 rfl,
   (C7_update_entry_tag_roundtrip c7Store exWorker 9 emptyPatch
      (updated_row exTaggedEntry emptyPatch)
      { c7Store with entries := save_entry c7Store.entries 9 (updated_row exTaggedEntry emptyPatch) }
      exTaggedEntry (by decide) rfl).2.1 rfl⟩

/-- Every item produced by `repo_list` satisfies the assembled WHERE clause
(paging and ordering only permute and trim the filtered rows). -/
theorem repo_list_items_match (entries : List TimeEntry) (org : Nat) (f : ListFilters)
    (limit offset : Nat) :
    ∀ e ∈ (repo_list entries org f limit offset).1, entry_matches f org e = true := by
  intro e he
  unfold repo_list at he
  have h1 := List.mem_of_mem_take he
  have h2 := List.mem_of_mem_drop h1
  have h3 := (List.mergeSort_perm (entries.filter (entry_matches f org))
    (fun a b => decide (b.start_time ≤ a.start_time))).mem_iff.mp h2
  exact (List.mem_filter.mp h3).2

/-- The user filter of the WHERE clause pins the row's `user_id`. -/
theorem entry_matches_user {f : ListFilters} {org : Nat} {e : TimeEntry} {uid : Nat}
    (hf : f.user_id = some uid) (h : entry_matches f org e = true) : e.user_id = uid := by
  simp only [entry_matches, hf, Bool.and_eq_true, beq_iff_eq] at h
  exact h.1.1.1.1.1.1.1.2

/-- C8: `list_entries` returns only the worker's own rows for a worker
principal; a worker passing another `user_id` filter gets Forbidden; a boss
passing a `user_id` that does not resolve to a same-org user gets NotFound;
and a boss's valid `user_id` filter pins every returned row to that user. -/
theorem C8_list_entries_visibility (store : Store) (u : UserData)
    (project_id task_id : Option Nat) (is_billable : Option Bool) (user_id : Option Nat)
    (start_date end_date : Option Int) (is_running : Option Bool)
    (tag_ids : Option (List Nat)) (limit offset : Nat) :
    (u.role = "worker" → ∀ r st,
      list_entries store u project_id task_id is_billable user_id start_date end_date
        is_running tag_ids limit offset = .ok (r, st) →
      ∀ e ∈ r.items, e.user_id = u.id) ∧
    (u.role = "worker" → ∀ uid, user_id = some uid → uid ≠ u.id →
      list_entries store u project_id task_id is_billable user_id start_date end_date
        is_running tag_ids limit offset =
        .error (.forbidden "You can only view your own time entries", store)) ∧
    (u.role ≠ "worker" → ∀ uid, user_id = some uid →
      (∀ fu, user_get store.users uid = some fu →
        fu.organization_id ≠ u.organization_id) →
      list_entries store u project_id task_id is_billable user_id start_date end_date
        is_running tag_ids limit offset = .error (.notFound "User not found", store)) ∧
    (u.role ≠ "worker" → ∀ uid fu, user_id = some uid →
      user_get store.users uid = some fu → fu.organization_id = u.organization_id →
      ∀ r st,
        list_entries store u project_id task_id is_billable user_id start_date end_date
          is_running tag_ids limit offset = .ok (r, st) →
        ∀ e ∈ r.items, e.user_id = uid) := by
  refine ⟨?_, ?_, ?_, ?_⟩
  · intro hrole r st h e he
    simp only [list_entries, hrole] at h
    rw [if_pos (by simp)] at h
    split at h
    · cases h
    · simp only [Except.ok.injEq, Prod.mk.injEq] at h
      obtain ⟨hr, hst⟩ := h
      subst hr
      have hm := repo_list_items_match store.entries u.organization_id _ limit offset e he
      exact entry_matches_user rfl hm
  · intro hrole uid huid hne
    subst huid
    simp only [list_entries, hrole]
    rw [if_pos (by simp)]
    rw [if_pos (by simp [hne])]
  · intro hrole uid huid hbad
    subst huid
    have hrb : (u.role == "worker") = false := by
      simp only [beq_eq_false_iff_ne, ne_eq]
      exact hrole
    simp only [list_entries, hrb, Bool.false_eq_true, if_false]
    rcases hfu : user_get store.users uid with _ | fu
    · simp [hfu]
    · have hbad2 := hbad fu hfu
      simp [hfu, hbad2]
  · intro hrole uid fu huid hfu horg r st h e he
    subst huid
    have hrb : (u.role == "worker") = false := by
      simp only [beq_eq_false_iff_ne, ne_eq]
      exact hrole
    simp only [list_entries, hrb, Bool.false_eq_true, if_false, hfu] at h
    rw [if_neg (by simp [horg])] at h
    simp only [Except.ok.injEq, Prod.mk.injEq] at h
    obtain ⟨hr, hst⟩ := h
    subst hr
    have hm := repo_list_items_match store.entries u.organization_id _ limit offset e he
    exact entry_matches_user rfl hm

/-- Entry of the boss (user 2) in organization 10. -/
def exBossEntry : TimeEntry :=
  { id := 11, user_id := 2, project_id := 100, task_id := none, organization_id := 10,
    start_time := 300, end_time := some 400, is_running := false, is_billable := true,
    description := none, tags := [] }

/-- Store with one entry of the worker and one of the boss. -/
def c8Store : Store :=
  { entries := [exCompletedEntry, exBossEntry], projects := [exProject], tasks := [],
    tags := [], users := [exWorker, exBoss] }

/-- Concrete instantiation of `C8_list_entries_visibility`: a worker filtering
by another user's id is rejected with Forbidden. -/
theorem C8_list_entries_visibility_witness :
    list_entries c8Store exWorker none none none (some 2) none none none none 50 0 =
      .error (.forbidden "You can only view your own time entries", c8Store) :=
  (C8_list_entries_visibility c8Store exWorker none none none (some 2) none none none
    none 50 0).2.1 rfl 2 rfl (by decide)

/-- Patched fields of a row together with an explicitly chosen tag list. -/
def tagged_row (entry : TimeEntry) (data : TimeEntryUpdate) (tgs : List Nat) : TimeEntry :=
  { apply_patch_fields entry data with tags := tgs }

/-- Two stores with equal components are equal. -/
theorem store_ext {a b : Store} (h1 : a.entries = b.entries) (h2 : a.projects = b.projects)
    (h3 : a.tasks = b.tasks) (h4 : a.tags = b.tags) (h5 : a.users = b.users) : a = b := by
  cases a
  cases b
  rw [Store.mk.injEq]
  exact ⟨h1, h2, h3, h4, h5⟩

/-- The stored row of an update always has the shape "patched fields plus some
tag list". -/
theorem updated_row_eq_tagged (X : TimeEntry) (data : TimeEntryUpdate) :
    ∃ tr, updated_row X data = { apply_patch_fields X data with tags := tr } := by
  unfold updated_row
  rcases data.tag_ids with _ | (_ | tids)
  · exact ⟨(apply_patch_fields X data).tags, rfl⟩
  · exact ⟨(apply_patch_fields X data).tags, rfl⟩
  · exact ⟨tids, rfl⟩

/-- State left by `start_timer`: unchanged, or one appended running row that
starts at `now`, belongs to the principal, and was created only after the
no-running-timer and task checks passed. -/
theorem start_timer_state_cases (store : Store) (u : UserData) (d : TimeEntryStart)
    (now : Int) (nid : Nat) :
    stateOf (start_timer store u d now nid) = store ∨
    (get_running_entry store.entries u.id u.organization_id = none ∧
     task_check_fails store.tasks store.projects d.task_id d.project_id
       u.organization_id = false ∧
     ∃ e, e.id = nid ∧ e.user_id = u.id ∧ e.project_id = d.project_id ∧
       e.task_id = d.task_id ∧ e.organization_id = u.organization_id ∧
       e.start_time = now ∧ e.end_time = none ∧ e.is_running = true ∧
       stateOf (start_timer store u d now nid) =
         { store with entries := store.entries ++ [e] }) := by
  rcases hres : start_timer store u d now nid with ⟨⟨err, st⟩⟩ | ⟨⟨e, st⟩⟩
  · simp only [start_timer] at hres
    split at hres
    · simp only [Except.error.injEq, Prod.mk.injEq] at hres
      exact Or.inl (by simp only [stateOf]; exact hres.2.symm)
    · rename_i hrun
      split at hres
      · simp only [Except.error.injEq, Prod.mk.injEq] at hres
        exact Or.inl (by simp only [stateOf]; exact hres.2.symm)
      · split at hres
        · simp only [Except.error.injEq, Prod.mk.injEq] at hres
          exact Or.inl (by simp only [stateOf]; exact hres.2.symm)
        · rename_i htaskc
          split at hres
          · simp only [Except.error.injEq, Prod.mk.injEq] at hres
            exact Or.inl (by simp only [stateOf]; exact hres.2.symm)
          · obtain ⟨herr, e0, hent, hid, huid, hpid, htid, horg, hstt, hend, hrunning,
              hbill, hdesc, hproj, htsk, htg, husr⟩ :=
              repo_create_error_spec _ _ _ _ _ _ _ _ _ _ _ _ _ _ hres
            refine Or.inr ⟨Option.not_isSome_iff_eq_none.mp (by simpa using hrun),
              (by simpa using htaskc), e0,
              hid, huid, hpid, htid, horg, hstt, hend, hrunning, ?_⟩
            simp only [stateOf]
            exact store_ext hent hproj htsk htg husr
  · have h2 := hres
    simp only [start_timer] at h2
    split at h2
    · cases h2
    · rename_i hrun
      split at h2
      · cases h2
      · split at h2
        · cases h2
        · rename_i htaskc
          split at h2
          · cases h2
          · obtain ⟨hent, hid, huid, hpid, htid, horg, hstt, hend, hrunning, hbill,
              hdesc, hproj, htsk, htg, husr⟩ :=
              repo_create_ok_spec _ _ _ _ _ _ _ _ _ _ _ _ _ _ h2
            refine Or.inr ⟨Option.not_isSome_iff_eq_none.mp (by simpa using hrun),
              (by simpa using htaskc), e,
              hid, huid, hpid, htid, horg, hstt, hend, hrunning, ?_⟩
            simp only [stateOf]
            exact store_ext hent hproj htsk htg husr

/-- State left by `create_manual_entry`: unchanged, or one appended completed
row in the validated past window, inserted only after the overlap and task
checks passed. -/
theorem create_manual_state_cases (store : Store) (u : UserData) (d : TimeEntryCreate)
    (now : Int) (nid : Nat) :
    stateOf (create_manual_entry store u d now nid) = store ∨
    (d.start_time < d.end_time ∧ d.start_time ≤ now ∧ d.end_time ≤ now ∧
     check_overlap store.entries u.id d.start_time d.end_time none = false ∧
     task_check_fails store.tasks store.projects d.task_id d.project_id
       u.organization_id = false ∧
     ∃ e, e.id = nid ∧ e.user_id = u.id ∧ e.project_id = d.project_id ∧
       e.task_id = d.task_id ∧ e.organization_id = u.organization_id ∧
       e.start_time = d.start_time ∧ e.end_time = some d.end_time ∧ e.is_running = false ∧
       stateOf (create_manual_entry store u d now nid) =
         { store with entries := store.entries ++ [e] }) := by
  rcases hres : create_manual_entry store u d now nid with ⟨⟨err, st⟩⟩ | ⟨⟨e, st⟩⟩
  · simp only [create_manual_entry] at hres
    split at hres
    · simp only [Except.error.injEq, Prod.mk.injEq] at hres
      exact Or.inl (by simp only [stateOf]; exact hres.2.symm)
    · rename_i hts
      split at hres
      · simp only [Except.error.injEq, Prod.mk.injEq] at hres
        exact Or.inl (by simp only [stateOf]; exact hres.2.symm)
      · rename_i hfut
        split at hres
        · simp only [Except.error.injEq, Prod.mk.injEq] at hres
          exact Or.inl (by simp only [stateOf]; exact hres.2.symm)
        · rename_i hov
          split at hres
          · simp only [Except.error.injEq, Prod.mk.injEq] at hres
            exact Or.inl (by simp only [stateOf]; exact hres.2.symm)
          · split at hres
            · simp only [Except.error.injEq, Prod.mk.injEq] at hres
              exact Or.inl (by simp only [stateOf]; exact hres.2.symm)
            · rename_i htaskc
              split at hres
              · simp only [Except.error.injEq, Prod.mk.injEq] at hres
                exact Or.inl (by simp only [stateOf]; exact hres.2.symm)
              · obtain ⟨herr, e0, hent, hid, huid, hpid, htid, horg, hstt, hend,
                  hrunning, hbill, hdesc, hproj, htsk, htg, husr⟩ :=
                  repo_create_error_spec _ _ _ _ _ _ _ _ _ _ _ _ _ _ hres
                simp only [Bool.not_eq_true, Bool.or_eq_false_iff,
                  decide_eq_false_iff_not, not_lt] at hfut
                refine Or.inr ⟨by omega, hfut.1, hfut.2,
                  (by simpa using hov), (by simpa using htaskc), e0,
                  hid, huid, hpid, htid, horg, hstt, hend, hrunning, ?_⟩
                simp only [stateOf]
                exact store_ext hent hproj htsk htg husr
  · have h2 := hres
    simp only [create_manual_entry] at h2
    split at h2
    · cases h2
    · rename_i hts
      split at h2
      · cases h2
      · rename_i hfut
        split at h2
        · cases h2
        · rename_i hov
          split at h2
          · cases h2
          · split at h2
            · cases h2
            · rename_i htaskc
              split at h2
              · cases h2
              · obtain ⟨hent, hid, huid, hpid, htid, horg, hstt, hend, hrunning,
                  hbill, hdesc, hproj, htsk, htg, husr⟩ :=
                  repo_create_ok_spec _ _ _ _ _ _ _ _ _ _ _ _ _ _ h2
                simp only [Bool.not_eq_true, Bool.or_eq_false_iff,
                  decide_eq_false_iff_not, not_lt] at hfut
                refine Or.inr ⟨by omega, hfut.1, hfut.2,
                  (by simpa using hov), (by simpa using htaskc), e,
                  hid, huid, hpid, htid, horg, hstt, hend, hrunning, ?_⟩
                simp only [stateOf]
                exact store_ext hent hproj htsk htg husr

/-- State left by `stop_timer`: unchanged, or the running row the owner
fetched has been rewritten (through its primary key) into its stopped form. -/
theorem stop_timer_state_cases (store : Store) (u : UserData) (eid : Nat) (now : Int) :
    stateOf (stop_timer store u eid now) = store ∨
    ∃ X Z, get_by_id store.entries eid u.organization_id = some X ∧ X.user_id = u.id ∧
      X.is_running = true ∧ store.entries.find? (fun e => e.id == eid) = some Z ∧
      stateOf (stop_timer store u eid now) =
        { store with entries := store.entries.map (fun x => if x.id == eid then stopped_row Z now else x) } := by
  rcases hres : stop_timer store u eid now with ⟨⟨err, st⟩⟩ | ⟨⟨e, st⟩⟩
  · simp only [stop_timer] at hres
    split at hres
    · simp only [Except.error.injEq, Prod.mk.injEq] at hres
      exact Or.inl (by simp only [stateOf]; exact hres.2.symm)
    · rename_i X hX
      split at hres
      · simp only [Except.error.injEq, Prod.mk.injEq] at hres
        exact Or.inl (by simp only [stateOf]; exact hres.2.symm)
      · split at hres
        · simp only [Except.error.injEq, Prod.mk.injEq] at hres
          exact Or.inl (by simp only [stateOf]; exact hres.2.symm)
        · split at hres
          · simp only [Except.error.injEq, Prod.mk.injEq] at hres
            exact Or.inl (by simp only [stateOf]; exact hres.2.symm)
          · cases hres
  · have h2 := hres
    simp only [stop_timer] at h2
    split at h2
    · cases h2
    · rename_i X hX
      split at h2
      · cases h2
      · rename_i howner
        split at h2
        · cases h2
        · rename_i hrunning
          rcases hrepo : repo_stop_timer store.entries eid now with _ | pr
          · rw [hrepo] at h2
            cases h2
          · obtain ⟨z2, es⟩ := pr
            rw [hrepo] at h2
            simp only [Except.ok.injEq, Prod.mk.injEq] at h2
            obtain ⟨he, hst⟩ := h2
            simp only [repo_stop_timer] at hrepo
            split at hrepo
            · cases hrepo
            · rename_i Z hfindZ
              simp only [Option.some.injEq, Prod.mk.injEq] at hrepo
              obtain ⟨hz2, hes⟩ := hrepo
              refine Or.inr ⟨X, Z, hX, by simpa using howner, by simpa using hrunning,
                hfindZ, ?_⟩
              simp only [stateOf]
              rw [← hst, ← hes]

/-- State left by `delete_entry`: unchanged, or exactly the fetched row has
been removed. -/
theorem delete_entry_state_cases (store : Store) (u : UserData) (eid : Nat) :
    stateOf (delete_entry store u eid) = store ∨
    stateOf (delete_entry store u eid) =
      { store with entries := store.entries.eraseP (fun e => e.id == eid && e.organization_id == u.organization_id) } := by
  rcases hres : delete_entry store u eid with ⟨⟨err, st⟩⟩ | ⟨⟨b, st⟩⟩
  · simp only [delete_entry] at hres
    split at hres
    · simp only [Except.error.injEq, Prod.mk.injEq] at hres
      exact Or.inl (by simp only [stateOf]; exact hres.2.symm)
    · split at hres
      · simp only [Except.error.injEq, Prod.mk.injEq] at hres
        exact Or.inl (by simp only [stateOf]; exact hres.2.symm)
      · split at hres
        · rename_i hdel
          simp only [repo_delete] at hdel
          split at hdel
          · simp only [Prod.mk.injEq] at hdel
            simp only [Except.error.injEq, Prod.mk.injEq] at hres
            exact Or.inl (by simp only [stateOf]; rw [← hres.2, ← hdel.2])
          · simp only [Prod.mk.injEq] at hdel
            cases hdel.1
        · cases hres
  · have h2 := hres
    simp only [delete_entry] at h2
    split at h2
    · cases h2
    · split at h2
      · cases h2
      · split at h2
        · cases h2
        · rename_i hdel
          simp only [repo_delete] at hdel
          split at hdel
          · simp only [Prod.mk.injEq] at hdel
            cases hdel.1
          · simp only [Prod.mk.injEq] at hdel
            simp only [Except.ok.injEq, Prod.mk.injEq] at h2
            refine Or.inr ?_
            simp only [stateOf]
            rw [← h2.2, ← hdel.2]

/-- State left by `update_entry`: unchanged, or the fetched row has been
rewritten through its primary key with its patched fields and some tag list,
after the running-guard, temporal and task checks all passed. -/
theorem update_entry_state_cases (store : Store) (u : UserData) (eid : Nat)
    (data : TimeEntryUpdate) :
    stateOf (update_entry store u eid data) = store ∨
    ∃ X tgs, get_by_id store.entries eid u.organization_id = some X ∧
      (X.is_running = true → data.start_time = none ∧ data.end_time = none) ∧
      (∀ ne, newEnd X data = some ne → ∃ ns, newStart X data = some ns ∧ ns < ne) ∧
      ((data.start_time.isSome || data.end_time.isSome) = true →
        ∀ ns ne, newStart X data = some ns → newEnd X data = some ne →
          check_overlap store.entries X.user_id ns ne (some eid) = false) ∧
      (∀ t, data.task_id = some (some t) →
        ∃ tk, task_get store.tasks store.projects t u.organization_id = some tk ∧
          some tk.project_id = effProject X data) ∧
      stateOf (update_entry store u eid data) =
        { store with entries := save_entry store.entries eid (tagged_row X data tgs) } := by
  rcases hres : update_entry store u eid data with ⟨⟨err, st⟩⟩ | ⟨⟨e2, st⟩⟩
  · rcases update_entry_error_spec _ _ _ _ _ _ hres with hsame | ⟨X, hX, hauth, hrun,
      hst, h5, h6, h8⟩
    · exact Or.inl (by simp only [stateOf]; exact hsame)
    · refine Or.inr ⟨X, [], hX, hrun, h5, h6, h8, ?_⟩
      simp only [stateOf]
      exact hst
  · obtain ⟨X, hX, hauth, hrun, hnull, he2, hst, h5, h6, h8⟩ :=
      update_entry_ok_spec _ _ _ _ _ _ hres
    obtain ⟨tr, htr⟩ := updated_row_eq_tagged X data
    refine Or.inr ⟨X, tr, hX, hrun, h5, h6, h8, ?_⟩
    simp only [stateOf]
    rw [hst, htr]
    rfl

/-- The amendment C2 needs: the patch of an update operation must not carry an
explicit `end_time: null` (the one input on which the code breaks the
invariant). -/
def opPatchEndOk : LifecycleOp → Prop
  | .updateEntryOp _ _ patch => patch.end_time ≠ some none
  | _ => True

/-- C2 (amended): every lifecycle operation — except an `update_entry` whose
patch carries an explicit `end_time: null`, which the code accepts and which
breaks the equivalence — preserves `is_running == (end_time is None)` for
every entry. -/
theorem C2_is_running_iff_end_null (op : LifecycleOp) (store : Store)
    (hinv : isRunningConsistent store.entries) (hp : opPatchEndOk op) :
    isRunningConsistent (applyOp store op).entries := by
  cases op with
  | startTimerOp u d now nid =>
    rcases start_timer_state_cases store u d now nid with hsame |
      ⟨hrun, htask, e, hid, huid, hpid, htid, horg, hstt, hend, hrunning, hstate⟩
    · simpa only [applyOp, hsame] using hinv
    · simp only [applyOp, hstate]
      intro x hx
      simp only [List.mem_append, List.mem_singleton] at hx
      rcases hx with hx | rfl
      · exact hinv x hx
      · rw [hrunning, hend]
        rfl
  | stopTimerOp u eid now =>
    rcases stop_timer_state_cases store u eid now with hsame |
      ⟨X, Z, hX, huid, hrunning, hZ, hstate⟩
    · simpa only [applyOp, hsame] using hinv
    · simp only [applyOp, hstate]
      intro x hx
      simp only [List.mem_map] at hx
      obtain ⟨y, hy, rfl⟩ := hx
      by_cases hc : (y.id == eid) = true
      · simp only [hc, if_true, stopped_row]
        rfl
      · simp only [hc, if_false]
        exact hinv y hy
  | createManualOp u d now nid =>
    rcases create_manual_state_cases store u d now nid with hsame |
      ⟨hlt, hs, he, hov, htask, e, hid, huid, hpid, htid, horg, hstt, hend, hrunning,
        hstate⟩
    · simpa only [applyOp, hsame] using hinv
    · simp only [applyOp, hstate]
      intro x hx
      simp only [List.mem_append, List.mem_singleton] at hx
      rcases hx with hx | rfl
      · exact hinv x hx
      · rw [hrunning, hend]
        rfl
  | updateEntryOp u eid patch =>
    rcases update_entry_state_cases store u eid patch with hsame |
      ⟨X, tgs, hX, hrunimp, h5, h6, h8, hstate⟩
    · simpa only [applyOp, hsame] using hinv
    · simp only [applyOp, hstate]
      intro x hx
      simp only [save_entry, List.mem_map] at hx
      obtain ⟨y, hy, rfl⟩ := hx
      by_cases hc : (y.id == eid) = true
      · simp only [hc, if_true]
        have hXmem : X ∈ store.entries := by
          unfold get_by_id at hX
          exact List.mem_of_find?_eq_some hX
        have hXinv := hinv X hXmem
        simp only [opPatchEndOk] at hp
        rcases hpe : patch.end_time with _ | (_ | v)
        · simp only [tagged_row, apply_patch_fields, hpe]
          exact hXinv
        · exact absurd hpe hp
        · have hXnr : X.is_running = false := by
            by_contra hXr
            rw [Bool.not_eq_false] at hXr
            rw [(hrunimp hXr).2] at hpe
            cases hpe
          simp only [tagged_row, apply_patch_fields, hpe, hXnr]
          rfl
      · simp only [hc, if_false]
        exact hinv y hy
  | deleteEntryOp u eid =>
    rcases delete_entry_state_cases store u eid with hsame | hstate
    · simpa only [applyOp, hsame] using hinv
    · simp only [applyOp, hstate]
      intro x hx
      exact hinv x ((store.entries.eraseP_sublist).subset hx)

/-- Store holding just the completed entry of user 1. -/
def c2Store : Store :=
  { entries := [exCompletedEntry], projects := [exProject], tasks := [], tags := [],
    users := [exWorker] }

/-- Patch whose only key is an explicit `end_time: null`. -/
def c2Patch : TimeEntryUpdate :=
  { project_id := none, task_id := none, start_time := none, end_time := some none
    is_billable := none, description := none, tag_ids := none }

/-- C2 counterexample: the claim as stated is false — `update_entry` with an
explicit `end_time: null` on a completed entry succeeds, nulls `end_time` and
leaves `is_running = false`, breaking the equivalence. -/
theorem C2_is_running_iff_end_null_counterexample :
    isRunningConsistent c2Store.entries ∧
    ¬ isRunningConsistent (applyOp c2Store (.updateEntryOp exWorker 7 c2Patch)).entries := by
  decide

/-- Concrete instantiation of `C2_is_running_iff_end_null`: a patch without an
explicit null `end_time` keeps the invariant. -/
theorem C2_is_running_iff_end_null_witness :
    isRunningConsistent (applyOp c2Store (.updateEntryOp exWorker 7 emptyPatch)).entries :=
  C2_is_running_iff_end_null (.updateEntryOp exWorker 7 emptyPatch) c2Store (by decide)
    (by intro hc; cases hc)

/-- A clean task check of `start_timer`/`create_manual_entry` resolves the
requested task in the org to the requested project. -/
theorem task_check_fails_false {tasks : List Task} {projects : List Project}
    {task_id : Option Nat} {project_id org : Nat}
    (h : task_check_fails tasks projects task_id project_id org = false) :
    ∀ tid, task_id = some tid →
      ∃ t, task_get tasks projects tid org = some t ∧ t.project_id = project_id := by
  intro tid htid
  rcases htk : task_get tasks projects tid org with _ | t
  · exfalso
    simp only [task_check_fails, htid, htk] at h
    exact Bool.noConfusion h
  · simp only [task_check_fails, htid, htk] at h
    have h2 : (t.project_id == project_id) = true := by simpa using h
    exact ⟨t, rfl, by simpa using h2⟩

/-- Replacing the entry table leaves the per-entry task check unchanged (it
reads only the task and project directories). -/
theorem taskOk_store_entries (store : Store) (E : List TimeEntry) (e : TimeEntry) :
    taskOk { store with entries := E } e = taskOk store e := rfl

/-- The amendment C6 needs: an update patch that touches `project_id` must
also touch `task_id` (or the entry must have no task) — the code skips task
revalidation otherwise. -/
def opTaskPatchOk (store : Store) : LifecycleOp → Prop
  | .updateEntryOp u eid patch =>
    patch.project_id ≠ none →
      (patch.task_id ≠ none ∨
       ∀ X, get_by_id store.entries eid u.organization_id = some X → X.task_id = none)
  | _ => True

/-- C6 (amended): every lifecycle operation preserves "a set task belongs to
the entry's project", except an `update_entry` patch that changes `project_id`
while leaving a non-null `task_id` untouched — the one case the code does not
revalidate, excluded here by `opTaskPatchOk`. -/
theorem C6_task_project_consistency (op : LifecycleOp) (store : Store)
    (hinv : taskConsistent store) (hok : opTaskPatchOk store op) :
    taskConsistent (applyOp store op) := by
  cases op with
  | startTimerOp u d now nid =>
    rcases start_timer_state_cases store u d now nid with hsame |
      ⟨hrun, htask, e, hid, huid, hpid, htid, horg, hstt, hend, hrunning, hstate⟩
    · simpa only [applyOp, hsame] using hinv
    · simp only [applyOp, hstate]
      intro x hx
      rw [taskOk_store_entries]
      simp only [List.mem_append, List.mem_singleton] at hx
      rcases hx with hx | rfl
      · exact hinv x hx
      · unfold taskOk
        rw [htid]
        rcases hdt : d.task_id with _ | tid
        · rfl
        · obtain ⟨t, hget, hproj⟩ := task_check_fails_false htask tid hdt
          simp [horg, hget, hpid, hproj]
  | stopTimerOp u eid now =>
    rcases stop_timer_state_cases store u eid now with hsame |
      ⟨X, Z, hX, huid, hrunning, hZ, hstate⟩
    · simpa only [applyOp, hsame] using hinv
    · simp only [applyOp, hstate]
      intro x hx
      rw [taskOk_store_entries]
      simp only [List.mem_map] at hx
      obtain ⟨y, hy, rfl⟩ := hx
      by_cases hc : (y.id == eid) = true
      · simp only [hc, if_true]
        have hZmem := List.mem_of_find?_eq_some hZ
        exact hinv Z hZmem
      · simp only [hc, if_false]
        exact hinv y hy
  | createManualOp u d now nid =>
    rcases create_manual_state_cases store u d now nid with hsame |
      ⟨hlt, hs, he, hov, htask, e, hid, huid, hpid, htid, horg, hstt, hend, hrunning,
        hstate⟩
    · simpa only [applyOp, hsame] using hinv
    · simp only [applyOp, hstate]
      intro x hx
      rw [taskOk_store_entries]
      simp only [List.mem_append, List.mem_singleton] at hx
      rcases hx with hx | rfl
      · exact hinv x hx
      · unfold taskOk
        rw [htid]
        rcases hdt : d.task_id with _ | tid
        · rfl
        · obtain ⟨t, hget, hproj⟩ := task_check_fails_false htask tid hdt
          simp [horg, hget, hpid, hproj]
  | updateEntryOp u eid patch =>
    rcases update_entry_state_cases store u eid patch with hsame |
      ⟨X, tgs, hX, hrunimp, h5, h6, h8, hstate⟩
    · simpa only [applyOp, hsame] using hinv
    · simp only [applyOp, hstate]
      have hX2 := hX
      unfold get_by_id at hX2
      have hXmem := List.mem_of_find?_eq_some hX2
      have hXpred := List.find?_some hX2
      simp only [Bool.and_eq_true, beq_iff_eq] at hXpred
      intro x hx
      rw [taskOk_store_entries]
      simp only [save_entry, List.mem_map] at hx
      obtain ⟨y, hy, rfl⟩ := hx
      by_cases hc : (y.id == eid) = true
      swap
      · simp only [hc, if_false]
        exact hinv y hy
      · simp only [hc, if_true]
        unfold taskOk
        rcases hpt : patch.task_id with _ | (_ | t)
        · -- task key absent: row keeps the entry's task
          have hrow_task : (tagged_row X patch tgs).task_id = X.task_id := by
            simp [tagged_row, apply_patch_fields, hpt]
          rw [hrow_task]
          rcases hXt : X.task_id with _ | t0
          · rfl
          · have hXok := hinv X hXmem
            unfold taskOk at hXok
            rw [hXt] at hXok
            have hrow_org : (tagged_row X patch tgs).organization_id =
                X.organization_id := by
              simp [tagged_row, apply_patch_fields]
            have hrow_proj : (tagged_row X patch tgs).project_id = X.project_id := by
              rcases hpp : patch.project_id with _ | pv
              · simp [tagged_row, apply_patch_fields, hpp]
              · simp only [opTaskPatchOk] at hok
                rcases hok (by rw [hpp]; intro hcc; cases hcc) with hne | hnone
                · exact absurd hpt hne
                · rw [hnone X hX] at hXt
                  cases hXt
            rw [hrow_org, hrow_proj]
            exact hXok
        · -- explicit null task: row has no task
          have hrow_task : (tagged_row X patch tgs).task_id = none := by
            simp [tagged_row, apply_patch_fields, hpt]
          rw [hrow_task]
        · -- patched task: validated against the effective project
          obtain ⟨tk, hget, hproj⟩ := h8 t hpt
          have hrow_task : (tagged_row X patch tgs).task_id = some t := by
            simp [tagged_row, apply_patch_fields, hpt]
          have hrow_org : (tagged_row X patch tgs).organization_id =
              X.organization_id := by
            simp [tagged_row, apply_patch_fields]
          have hrow_proj : some (tagged_row X patch tgs).project_id =
              effProject X patch := by
            rcases hpp : patch.project_id with _ | (_ | pv)
            · simp [tagged_row, apply_patch_fields, effProject, hpp]
            · exfalso
              simp only [effProject, hpp] at hproj
              exact Option.noConfusion hproj
            · simp [tagged_row, apply_patch_fields, effProject, hpp]
          have hrow_projeq : (tagged_row X patch tgs).project_id = tk.project_id :=
            (Option.some.inj (hproj.trans hrow_proj.symm)).symm
          simp [hrow_task, hrow_org, hXpred.2, hget, hrow_projeq]
  | deleteEntryOp u eid =>
    rcases delete_entry_state_cases store u eid with hsame | hstate
    · simpa only [applyOp, hsame] using hinv
    · simp only [applyOp, hstate]
      intro x hx
      rw [taskOk_store_entries]
      exact hinv x ((store.entries.eraseP_sublist).subset hx)

/-- Completed entry of user 1 on project 100 with task 200 attached. -/
def exTaskEntry : TimeEntry :=
  { id := 12, user_id := 1, project_id := 100, task_id := some 200,
    organization_id := 10, start_time := 100, end_time := some 200, is_running := false,
    is_billable := true, description := none, tags := [] }

/-- Store with two projects, the task on project 100, and the task-carrying
entry. -/
def c6Store : Store :=
  { entries := [exTaskEntry], projects := [exProject, exProject2], tasks := [exTask],
    tags := [], users := [exWorker] }

/-- Patch whose only key moves the entry to project 101. -/
def c6Patch : TimeEntryUpdate :=
  { project_id := some (some 101), task_id := none, start_time := none, end_time := none
    is_billable := none, description := none, tag_ids := none }

/-- Patch that moves the entry to project 101 and also clears its task. -/
def c6PatchBoth : TimeEntryUpdate :=
  { project_id := some (some 101), task_id := some none, start_time := none
    end_time := none, is_billable := none, description := none, tag_ids := none }

/-- C6 counterexample: the claim as stated is false — an `update_entry` patch
that changes `project_id` while leaving `task_id` untouched succeeds and
leaves the entry pointing at a task of the old project. -/
theorem C6_task_project_consistency_counterexample :
    taskConsistent c6Store ∧
    ¬ taskConsistent (applyOp c6Store (.updateEntryOp exWorker 12 c6Patch)) := by
  decide

/-- Concrete instantiation of `C6_task_project_consistency`: the same project
move with the task also patched (cleared) keeps the invariant. -/
theorem C6_task_project_consistency_witness :
    taskConsistent (applyOp c6Store (.updateEntryOp exWorker 12 c6PatchBoth)) :=
  C6_task_project_consistency (.updateEntryOp exWorker 12 c6PatchBoth) c6Store
    (by decide) (fun _ => Or.inl (fun hc => by cases hc))

/-- Interval intersection is symmetric. -/
theorem entriesOverlap_comm (a b : TimeEntry) : entriesOverlap a b = entriesOverlap b a := by
  unfold entriesOverlap
  rcases effectiveInterval a with _ | ⟨s1, e1⟩ <;>
    rcases effectiveInterval b with _ | ⟨s2, e2⟩ <;>
    simp only [intervalsIntersect]
  rw [max_comm s1 s2, Bool.and_comm]

/-- The effective interval is computed from running flag, start and end only. -/
theorem effectiveInterval_congr {a a2 : TimeEntry} (h1 : a2.is_running = a.is_running)
    (h2 : a2.start_time = a.start_time) (h3 : a2.end_time = a.end_time) :
    effectiveInterval a2 = effectiveInterval a := by
  unfold effectiveInterval
  rw [h1, h2, h3]

/-- A running entry's interval is `[start, +inf)`. -/
theorem effectiveInterval_running {a : TimeEntry} (h : a.is_running = true) :
    effectiveInterval a = some (a.start_time, none) := by
  simp [effectiveInterval, h]

/-- A completed entry with an end has the interval `[start, end)`. -/
theorem effectiveInterval_completed {a : TimeEntry} {t : Int} (h : a.is_running = false)
    (he : a.end_time = some t) : effectiveInterval a = some (a.start_time, some t) := by
  simp [effectiveInterval, h, he]

/-- A completed entry without an end has no interval. -/
theorem effectiveInterval_anomalous {a : TimeEntry} (h : a.is_running = false)
    (he : a.end_time = none) : effectiveInterval a = none := by
  simp [effectiveInterval, h, he]

/-- Capping a right-unbounded interval cannot create a new intersection. -/
theorem intervalsIntersect_shrink_end {s t : Int} {iv : Option (Int × Option Int)}
    (h : intervalsIntersect (some (s, none)) iv = false) :
    intervalsIntersect (some (s, some t)) iv = false := by
  rcases iv with _ | ⟨s2, e2⟩
  · rfl
  · rcases e2 with _ | t2
    · exfalso
      simp [intervalsIntersect] at h
    · unfold intervalsIntersect at h ⊢
      simp only [Bool.and_eq_true, Bool.and_eq_false_iff] at h ⊢
      rcases h with h | h
      · cases h
      · exact Or.inr h

/-- The overlap test of `check_overlap`, read back for one member row. -/
theorem check_overlap_false_mem {entries : List TimeEntry} {u : Nat} {ns ne : Int}
    {excl : Option Nat} (h : check_overlap entries u ns ne excl = false)
    {b : TimeEntry} (hb : b ∈ entries) (hu : b.user_id = u)
    (hx : ∀ x, excl = some x → b.id ≠ x) :
    (b.is_running = true → ¬(b.start_time < ne)) ∧
    (b.is_running = false → ∀ bet, b.end_time = some bet → b.start_time < ne →
      ¬(ns < bet)) := by
  rcases excl with _ | x
  · simp only [check_overlap] at h
    rw [List.any_eq_false] at h
    have hbase : b ∈ entries.filter (fun e => e.user_id == u) :=
      List.mem_filter.mpr ⟨hb, by simp [hu]⟩
    have hp := h b hbase
    constructor
    · intro hr hlt
      exact hp (by simp [hr, hlt])
    · intro hr bet hbet hlt hgt
      exact hp (by simp [hr, hbet, hlt, hgt])
  · simp only [check_overlap] at h
    rw [List.any_eq_false] at h
    have hbase : b ∈ (entries.filter (fun e => e.user_id == u)).filter
        (fun e => !(e.id == x)) :=
      List.mem_filter.mpr ⟨List.mem_filter.mpr ⟨hb, by simp [hu]⟩, by simp [hx x rfl]⟩
    have hp := h b hbase
    constructor
    · intro hr hlt
      exact hp (by simp [hr, hlt])
    · intro hr bet hbet hlt hgt
      exact hp (by simp [hr, hbet, hlt, hgt])

/-- An interval `[ns, ne)` passing the per-row overlap conditions does not
intersect the row's effective interval. -/
theorem no_intersect_of_checks {b : TimeEntry} {ns ne : Int}
    (h1 : b.is_running = true → ¬(b.start_time < ne))
    (h2 : b.is_running = false → ∀ bet, b.end_time = some bet → b.start_time < ne →
      ¬(ns < bet)) :
    intervalsIntersect (some (ns, some ne)) (effectiveInterval b) = false := by
  rcases hbr : b.is_running
  · rcases hbe : b.end_time with _ | bet
    · rw [effectiveInterval_anomalous hbr hbe]
      rfl
    · rw [effectiveInterval_completed hbr hbe]
      rcases lt_or_ge b.start_time ne with hlt | hge
      · have hbet := h2 hbr bet hbe hlt
        have hmax : ¬ (max ns b.start_time < bet) := by omega
        simp [intervalsIntersect, hmax]
      · have hmax : ¬ (max ns b.start_time < ne) := by omega
        simp [intervalsIntersect, hmax]
  · rw [effectiveInterval_running hbr]
    have hge := h1 hbr
    have hmax : ¬ (max ns b.start_time < ne) := by omega
    simp [intervalsIntersect, hmax]

/-- A fresh open-ended interval starting at `now` does not intersect a
non-running row that ends by `now`. -/
theorem no_intersect_running_new {b : TimeEntry} {now : Int}
    (hnr : b.is_running = false) (hpast : ∀ bet, b.end_time = some bet → bet ≤ now) :
    intervalsIntersect (some (now, none)) (effectiveInterval b) = false := by
  rcases hbe : b.end_time with _ | bet
  · rw [effectiveInterval_anomalous hnr hbe]
    rfl
  · rw [effectiveInterval_completed hnr hbe]
    have hb := hpast bet hbe
    have hmax : ¬ (max now b.start_time < bet) := by omega
    simp [intervalsIntersect, hmax]

/-- The middle row of an overlap-free table does not intersect any other row
of the same user. -/
theorem overlapFree_middle_rel {u : Nat} {l₁ l₂ : List TimeEntry} {X : TimeEntry}
    (hfree : overlapFree u (l₁ ++ X :: l₂)) :
    ∀ b, (b ∈ l₁ ∨ b ∈ l₂) → X.user_id = u → b.user_id = u →
      entriesOverlap X b = false := by
  have hsymm : ∀ {a b : TimeEntry},
      (a.user_id = u → b.user_id = u → entriesOverlap a b = false) →
      (b.user_id = u → a.user_id = u → entriesOverlap b a = false) := by
    intro a b hab hb ha
    rw [entriesOverlap_comm]
    exact hab ha hb
  have hmid := (List.pairwise_middle fun h => hsymm h).mp hfree
  rw [List.pairwise_cons] at hmid
  intro b hbmem hXu hbu
  exact hmid.1 b (List.mem_append.mpr hbmem) hXu hbu

/-- Replacing the middle row with one that intersects no other row of the
user preserves overlap-freeness. -/
theorem overlapFree_replace {u : Nat} {l₁ l₂ : List TimeEntry} {X X2 : TimeEntry}
    (hfree : overlapFree u (l₁ ++ X :: l₂))
    (hnew : ∀ b, (b ∈ l₁ ∨ b ∈ l₂) → X2.user_id = u → b.user_id = u →
      entriesOverlap X2 b = false) :
    overlapFree u (l₁ ++ X2 :: l₂) := by
  have hsymm : ∀ {a b : TimeEntry},
      (a.user_id = u → b.user_id = u → entriesOverlap a b = false) →
      (b.user_id = u → a.user_id = u → entriesOverlap b a = false) := by
    intro a b hab hb ha
    rw [entriesOverlap_comm]
    exact hab ha hb
  have hmid := (List.pairwise_middle fun h => hsymm h).mp hfree
  rw [List.pairwise_cons] at hmid
  refine (List.pairwise_middle fun h => hsymm h).mpr ?_
  rw [List.pairwise_cons]
  refine ⟨?_, hmid.2⟩
  intro b hb hX2u hbu
  exact hnew b (List.mem_append.mp hb) hX2u hbu

/-- Appending a row that intersects no existing row of the user preserves
overlap-freeness. -/
theorem overlapFree_append {u : Nat} {l : List TimeEntry} {e : TimeEntry}
    (hfree : overlapFree u l)
    (hnew : ∀ a ∈ l, a.user_id = u → e.user_id = u → entriesOverlap a e = false) :
    overlapFree u (l ++ [e]) := by
  refine List.pairwise_append.mpr ⟨hfree, by simp, ?_⟩
  intro a ha b hb
  simp only [List.mem_singleton] at hb
  subst hb
  exact hnew a ha

/-- C1 (amended): starting from a state with unique entry ids, with the
principal's entries inside the principal's organization, with every completed
entry ending no later than the operation's wall-clock instant (the condition
the original claim lacks), and with user `u`'s entries pairwise
non-overlapping, every lifecycle operation preserves the non-overlap. -/
theorem C1_overlap_free_preserved (op : LifecycleOp) (store : Store) (u : Nat)
    (hids : uniqueIds store.entries)
    (horg : userOrgConsistent store.entries (opUser op))
    (hpast : ∀ t, opNow op = some t → completedInPast store.entries t)
    (hfree : overlapFree u store.entries) :
    overlapFree u (applyOp store op).entries := by
  cases op with
  | startTimerOp u0 d now nid =>
    rcases start_timer_state_cases store u0 d now nid with hsame |
      ⟨hrun, htask, e, hid, huid, hpid, htid, horg2, hstt, hend, hrunning, hstate⟩
    · simpa only [applyOp, hsame] using hfree
    · simp only [applyOp, hstate]
      refine overlapFree_append hfree ?_
      intro a ha hau heu
      have huu : u = u0.id := by rw [← heu, huid]
      have hauser : a.user_id = u0.id := by rw [hau, huu]
      have haorg : a.organization_id = u0.organization_id := horg a ha hauser
      have hanr : a.is_running = false := by
        by_contra hc
        rw [Bool.not_eq_false] at hc
        have hsome : (get_running_entry store.entries u0.id u0.organization_id).isSome
            = true := by
          unfold get_running_entry
          rw [List.find?_isSome]
          exact ⟨a, ha, by simp [hauser, haorg, hc]⟩
        rw [hrun] at hsome
        cases hsome
      have hpast2 : ∀ bet, a.end_time = some bet → bet ≤ now := by
        intro bet hbet
        have hp := hpast now rfl a ha hanr
        rw [hbet] at hp
        simpa using hp
      rw [entriesOverlap_comm]
      unfold entriesOverlap
      rw [effectiveInterval_running hrunning, hstt]
      exact no_intersect_running_new hanr hpast2
  | stopTimerOp u0 eid now =>
    rcases stop_timer_state_cases store u0 eid now with hsame |
      ⟨X, Z, hX, hXuid, hXrun, hZ, hstate⟩
    · simpa only [applyOp, hsame] using hfree
    · simp only [applyOp, hstate]
      have hX2 := hX
      unfold get_by_id at hX2
      have hXmem := List.mem_of_find?_eq_some hX2
      have hXpred := List.find?_some hX2
      simp only [Bool.and_eq_true, beq_iff_eq] at hXpred
      have hZmem := List.mem_of_find?_eq_some hZ
      have hZid : Z.id = eid := by simpa using List.find?_some hZ
      have hZX : Z = X := nodup_ids_eq hids hXmem hZmem (by rw [hZid, hXpred.1])
      subst hZX
      obtain ⟨l₁, l₂, hsplit, hne, hmap, _, _⟩ :=
        replace_row_state hids hX (stopped_row Z now)
      rw [hmap]
      rw [hsplit] at hfree
      refine overlapFree_replace hfree ?_
      intro b hb hX2u hbu
      have hXb := overlapFree_middle_rel hfree b hb hX2u hbu
      unfold entriesOverlap at hXb ⊢
      rw [effectiveInterval_running hXrun] at hXb
      rw [effectiveInterval_completed
        (show (stopped_row Z now).is_running = false from rfl)
        (show (stopped_row Z now).end_time = some now from rfl)]
      exact intervalsIntersect_shrink_end hXb
  | createManualOp u0 d now nid =>
    rcases create_manual_state_cases store u0 d now nid with hsame |
      ⟨hlt, hs1, he1, hov, htask, e, hid, huid, hpid, htid, horg2, hstt, hend,
        hrunning, hstate⟩
    · simpa only [applyOp, hsame] using hfree
    · simp only [applyOp, hstate]
      refine overlapFree_append hfree ?_
      intro a ha hau heu
      have huu : u = u0.id := by rw [← heu, huid]
      have hauser : a.user_id = u0.id := by rw [hau, huu]
      have hchk := check_overlap_false_mem hov ha hauser (by intro x hx; cases hx)
      rw [entriesOverlap_comm]
      unfold entriesOverlap
      rw [effectiveInterval_completed hrunning hend, hstt]
      exact no_intersect_of_checks hchk.1 hchk.2
  | updateEntryOp u0 eid patch =>
    rcases update_entry_state_cases store u0 eid patch with hsame |
      ⟨X, tgs, hX, hrunimp, h5, h6, h8, hstate⟩
    · simpa only [applyOp, hsame] using hfree
    · simp only [applyOp, hstate, save_entry]
      obtain ⟨l₁, l₂, hsplit, hne, hmap, hXid, hXorg⟩ :=
        replace_row_state hids hX (tagged_row X patch tgs)
      rw [hmap]
      rw [hsplit] at hfree
      refine overlapFree_replace hfree ?_
      intro b hb hX2u hbu
      have hre : (tagged_row X patch tgs).end_time = newEnd X patch := rfl
      by_cases htouch : (patch.start_time.isSome || patch.end_time.isSome) = true
      · have hXnr : X.is_running = false := by
          by_contra hc
          rw [Bool.not_eq_false] at hc
          obtain ⟨hsn, hen⟩ := hrunimp hc
          rw [hsn, hen] at htouch
          cases htouch
        rcases hniend : newEnd X patch with _ | ne2
        · have hrow_end : (tagged_row X patch tgs).end_time = none := by
            rw [hre, hniend]
          unfold entriesOverlap
          rw [effectiveInterval_anomalous
            (show (tagged_row X patch tgs).is_running = false by
              rw [show (tagged_row X patch tgs).is_running = X.is_running from rfl, hXnr])
            hrow_end]
          rfl
        · obtain ⟨ns2, hns, hlt2⟩ := h5 ne2 hniend
          have hchk := h6 htouch ns2 ne2 hns hniend
          have hbne : b.id ≠ eid := hne b hb
          have hbstore : b ∈ l₁ ++ X :: l₂ := by
            rcases hb with hb | hb
            · exact List.mem_append.mpr (Or.inl hb)
            · exact List.mem_append.mpr (Or.inr (List.mem_cons_of_mem _ hb))
          rw [← hsplit] at hbstore
          have hbuser : b.user_id = X.user_id := by
            rw [hbu, ← hX2u]
            exact rfl
          have hc2 := check_overlap_false_mem hchk hbstore hbuser
            (by intro x hx; cases hx; exact hbne)
          have hrow_run : (tagged_row X patch tgs).is_running = false := by
            rw [show (tagged_row X patch tgs).is_running = X.is_running from rfl, hXnr]
          have hrow_end : (tagged_row X patch tgs).end_time = some ne2 := by
            rw [hre, hniend]
          have hrow_start : (tagged_row X patch tgs).start_time = ns2 := by
            rcases hps : patch.start_time with _ | (_ | v)
            · unfold newStart at hns
              rw [hps] at hns
              have hxs : X.start_time = ns2 := by simpa using hns
              simp [tagged_row, apply_patch_fields, hps, hxs]
            · unfold newStart at hns
              rw [hps] at hns
              cases hns
            · unfold newStart at hns
              rw [hps] at hns
              have hxs : v = ns2 := by simpa using hns
              simp [tagged_row, apply_patch_fields, hps, hxs]
          unfold entriesOverlap
          rw [effectiveInterval_completed hrow_run hrow_end, hrow_start]
          exact no_intersect_of_checks hc2.1 hc2.2
      · have hps : patch.start_time = none := by
          rcases hps2 : patch.start_time with _ | v
          · rfl
          · exact absurd (by simp [hps2]) htouch
        have hpe : patch.end_time = none := by
          rcases hpe2 : patch.end_time with _ | v
          · rfl
          · exact absurd (by simp [hpe2]) htouch
        have hiv : effectiveInterval (tagged_row X patch tgs) = effectiveInterval X := by
          apply effectiveInterval_congr
          · rfl
          · simp [tagged_row, apply_patch_fields, hps]
          · rw [hre]
            unfold newEnd
            rw [hpe]
        have hXb := overlapFree_middle_rel hfree b hb hX2u hbu
        unfold entriesOverlap at hXb ⊢
        rw [hiv]
        exact hXb
  | deleteEntryOp u0 eid =>
    rcases delete_entry_state_cases store u0 eid with hsame | hstate
    · simpa only [applyOp, hsame] using hfree
    · simp only [applyOp, hstate]
      exact List.Pairwise.sublist (store.entries.eraseP_sublist) hfree

/-- Store holding one completed entry of user 1 over `[100, 200)`. -/
def c1Store : Store :=
  { entries := [exCompletedEntry], projects := [exProject], tasks := [], tags := [],
    users := [exWorker] }

/-- C1 counterexample: the claim as stated is false — from an overlap-free
state containing a completed entry over `[100, 200)`, a `start_timer` at wall
clock 50 succeeds (it checks only for a running timer, never for overlap) and
the new open-ended interval `[50, +inf)` intersects the completed entry. -/
theorem C1_overlap_free_preserved_counterexample :
    (overlapFree 1 c1Store.entries ∧ uniqueIds c1Store.entries ∧
     userOrgConsistent c1Store.entries exWorker) ∧
    ¬ overlapFree 1 (applyOp c1Store (.startTimerOp exWorker exStart 50 99)).entries := by
  decide

/-- Concrete instantiation of `C1_overlap_free_preserved`: the same
`start_timer` issued at wall clock 5000, after the completed entry has ended,
keeps the entries overlap-free. -/
theorem C1_overlap_free_preserved_witness :
    overlapFree 1 (applyOp c1Store (.startTimerOp exWorker exStart 5000 99)).entries :=
  C1_overlap_free_preserved (.startTimerOp exWorker exStart 5000 99) c1Store 1
    (by decide) (by decide) (fun t ht => by cases ht; decide) (by decide)

/-- Specification-side duration an entry contributes to project `p`
(zero when the entry has no end or belongs elsewhere). -/
def entryContribution (e : TimeEntry) (p : Nat) : Int :=
  match e.end_time with
  | some et => if e.project_id == p then et - e.start_time else 0
  | none => 0

/-- Specification-side billable duration an entry contributes to project `p`. -/
def entryBillContribution (e : TimeEntry) (p : Nat) : Int :=
  match e.end_time with
  | some et => if e.project_id == p && e.is_billable then et - e.start_time else 0
  | none => 0

/-- Specification-side total of project `p` over a list of entries. -/
def specDurSum (q : List TimeEntry) (p : Nat) : Int :=
  (q.map (fun e => entryContribution e p)).sum

/-- Specification-side billable total of project `p` over a list of entries. -/
def specBillSum (q : List TimeEntry) (p : Nat) : Int :=
  (q.map (fun e => entryBillContribution e p)).sum

/-- First accumulator row for project `p`. -/
def aggFind (acc : List ProjectAggregate) (p : Nat) : Option ProjectAggregate :=
  acc.find? (fun a => a.project_id == p)

/-- Accumulated total of project `p` (zero when absent). -/
def totalOf (acc : List ProjectAggregate) (p : Nat) : Int :=
  ((aggFind acc p).map ProjectAggregate.total_seconds).getD 0

/-- Accumulated billable total of project `p` (zero when absent). -/
def billOf (acc : List ProjectAggregate) (p : Nat) : Int :=
  ((aggFind acc p).map ProjectAggregate.billable_seconds).getD 0

/-- One `agg_step` adds exactly the entry's contribution to each project's
accumulated totals. -/
theorem totalOf_billOf_agg_step (projects : List Project) (acc : List ProjectAggregate)
    (e : TimeEntry) (p : Nat) :
    totalOf (agg_step projects acc e) p = totalOf acc p + entryContribution e p ∧
    billOf (agg_step projects acc e) p = billOf acc p + entryBillContribution e p := by
  rcases he : e.end_time with _ | et
  · simp [agg_step, entryContribution, entryBillContribution, he]
  · simp only [agg_step, entryContribution, entryBillContribution, he]
    by_cases hany : acc.any (fun a => a.project_id == e.project_id) = true
    · rw [if_pos hany]
      unfold totalOf billOf aggFind
      rw [List.find?_map]
      have hcomp : ((fun a : ProjectAggregate => a.project_id == p) ∘
          (fun a : ProjectAggregate => if (a.project_id == e.project_id) = true then
            { a with total_seconds := a.total_seconds + (et - e.start_time)
                     billable_seconds := a.billable_seconds +
                       (if e.is_billable then et - e.start_time else 0) }
          else a)) = fun a : ProjectAggregate => a.project_id == p := by
        funext a
        by_cases hc : a.project_id = e.project_id <;> simp [hc]
      rw [hcomp]
      rcases hf : acc.find? (fun a => a.project_id == p) with _ | a0
      · by_cases hpe : (e.project_id == p) = true
        · exfalso
          rw [List.any_eq_true] at hany
          obtain ⟨a, hmem, ha⟩ := hany
          rw [List.find?_eq_none] at hf
          apply hf a hmem
          rw [beq_iff_eq] at ha hpe ⊢
          rw [ha, hpe]
        · simp [hf, hpe]
      · have hap := List.find?_some hf
        simp only [beq_iff_eq] at hap
        by_cases hc : a0.project_id = e.project_id
        · have hep : (e.project_id == p) = true := by
            rw [beq_iff_eq, ← hc]
            exact hap
          by_cases hbill : e.is_billable = true <;>
            simp [hf, hc, hep, hbill] <;> omega
        · have hep : (e.project_id == p) = false := by
            rw [beq_eq_false_iff_ne]
            exact fun hcc => hc (hap.trans hcc.symm)
          simp [hf, hc, hep]
    · rw [if_neg hany]
      unfold totalOf billOf aggFind
      rw [List.find?_append]
      have hanyf : acc.any (fun a => a.project_id == e.project_id) = false := by
        cases hv : acc.any (fun a => a.project_id == e.project_id)
        · rfl
        · exact absurd hv hany
      rcases hf : acc.find? (fun a => a.project_id == p) with _ | a0
      · by_cases hpe : (e.project_id == p) = true
        · by_cases hbill : e.is_billable = true <;>
            simp [hf, List.find?, hpe, hbill]
        · simp [hf, List.find?, hpe]
      · have hap := List.find?_some hf
        simp only [beq_iff_eq] at hap
        rw [List.any_eq_false] at hanyf
        have hane := hanyf a0 (List.mem_of_find?_eq_some hf)
        have hep : (e.project_id == p) = false := by
          rw [beq_eq_false_iff_ne]
          intro hcc
          exact hane (by rw [beq_iff_eq, hap, hcc])
        simp [hf, List.find?, hep]

/-- Folding `agg_step` over a batch of entries adds each entry's contribution
to the accumulated per-project totals. -/
theorem totalOf_billOf_foldl (projects : List Project) (q : List TimeEntry) :
    ∀ (acc : List ProjectAggregate) (p : Nat),
      totalOf (q.foldl (agg_step projects) acc) p = totalOf acc p + specDurSum q p ∧
      billOf (q.foldl (agg_step projects) acc) p = billOf acc p + specBillSum q p := by
  induction q with
  | nil =>
    intro acc p
    simp [specDurSum, specBillSum]
  | cons e es ih =>
    intro acc p
    obtain ⟨ht, hb⟩ := ih (agg_step projects acc e) p
    obtain ⟨ht2, hb2⟩ := totalOf_billOf_agg_step projects acc e p
    constructor
    · rw [List.foldl_cons, ht, ht2]
      simp only [specDurSum, List.map_cons, List.sum_cons]
      ring
    · rw [List.foldl_cons, hb, hb2]
      simp only [specBillSum, List.map_cons, List.sum_cons]
      ring

/-- The project-id column of one `agg_step`: unchanged when the entry is
skipped or its project is already keyed, extended by the entry's project id
otherwise. -/
theorem agg_step_keys (projects : List Project) (acc : List ProjectAggregate) (e : TimeEntry) :
    (agg_step projects acc e).map ProjectAggregate.project_id =
      match e.end_time with
      | none => acc.map ProjectAggregate.project_id
      | some _ =>
        if acc.any (fun a => a.project_id == e.project_id) then
          acc.map ProjectAggregate.project_id
        else
          acc.map ProjectAggregate.project_id ++ [e.project_id] := by
  rcases he : e.end_time with _ | et
  · simp [agg_step, he]
  · simp only [agg_step, he]
    by_cases hany : acc.any (fun a => a.project_id == e.project_id) = true
    · rw [if_pos hany, if_pos hany, List.map_map]
      refine List.map_congr_left ?_
      intro a _
      by_cases hc : a.project_id = e.project_id <;> simp [hc]
    · rw [if_neg hany, if_neg hany, List.map_append]
      rfl

/-- `agg_step` keeps the accumulator's project ids pairwise distinct. -/
theorem agg_step_keys_nodup (projects : List Project) (acc : List ProjectAggregate)
    (e : TimeEntry) (h : (acc.map ProjectAggregate.project_id).Nodup) :
    ((agg_step projects acc e).map ProjectAggregate.project_id).Nodup := by
  rw [agg_step_keys]
  rcases he : e.end_time with _ | et
  · exact h
  · by_cases hany : acc.any (fun a => a.project_id == e.project_id) = true
    · rw [if_pos hany]
      exact h
    · rw [if_neg hany]
      rw [List.nodup_append]
      refine ⟨h, List.nodup_singleton _, ?_⟩
      intro x hx hx1
      rw [List.mem_singleton] at hx1
      subst hx1
      have hanyf : acc.any (fun a => a.project_id == e.project_id) = false := by
        cases hv : acc.any (fun a => a.project_id == e.project_id)
        · rfl
        · exact absurd hv hany
      rw [List.any_eq_false] at hanyf
      rw [List.mem_map] at hx
      obtain ⟨a, hmem, ha⟩ := hx
      exact hanyf a hmem (by rw [beq_iff_eq, ha])

/-- A project id is keyed after one `agg_step` iff it was keyed before or the
entry is completed and belongs to that project. -/
theorem mem_keys_agg_step (projects : List Project) (acc : List ProjectAggregate)
    (e : TimeEntry) (p : Nat) :
    p ∈ (agg_step projects acc e).map ProjectAggregate.project_id ↔
      p ∈ acc.map ProjectAggregate.project_id ∨
        (e.end_time.isSome = true ∧ e.project_id = p) := by
  rw [agg_step_keys]
  rcases he : e.end_time with _ | et
  · simp
  · simp only [Option.isSome_some, true_and]
    by_cases hany : acc.any (fun a => a.project_id == e.project_id) = true
    · rw [if_pos hany]
      constructor
      · exact Or.inl
      · rintro (h | rfl)
        · exact h
        · rw [List.any_eq_true] at hany
          obtain ⟨a, hmem, ha⟩ := hany
          rw [beq_iff_eq] at ha
          rw [← ha]
          exact List.mem_map_of_mem _ hmem
    · rw [if_neg hany]
      simp [List.mem_append, eq_comm]

/-- A project id is keyed after folding `agg_step` over a batch iff it was
keyed initially or some completed entry of the batch belongs to it. -/
theorem mem_keys_agg_foldl (projects : List Project) (q : List TimeEntry) :
    ∀ (acc : List ProjectAggregate) (p : Nat),
      p ∈ (q.foldl (agg_step projects) acc).map ProjectAggregate.project_id ↔
        p ∈ acc.map ProjectAggregate.project_id ∨
          ∃ e ∈ q, e.end_time.isSome = true ∧ e.project_id = p := by
  induction q with
  | nil =>
    intro acc p
    simp
  | cons e es ih =>
    intro acc p
    rw [List.foldl_cons, ih, mem_keys_agg_step]
    constructor
    · rintro ((h | h) | ⟨x, hx, hp⟩)
      · exact Or.inl h
      · exact Or.inr ⟨e, List.mem_cons_self _ _, h⟩
      · exact Or.inr ⟨x, List.mem_cons_of_mem _ hx, hp⟩
    · rintro (h | ⟨x, hx, hp⟩)
      · exact Or.inl (Or.inl h)
      · rcases List.mem_cons.mp hx with rfl | hx1
        · exact Or.inl (Or.inr hp)
        · exact Or.inr ⟨x, hx1, hp⟩

/-- Folding `agg_step` from an accumulator with distinct project ids keeps
them distinct. -/
theorem agg_foldl_keys_nodup (projects : List Project) (q : List TimeEntry) :
    ∀ (acc : List ProjectAggregate), (acc.map ProjectAggregate.project_id).Nodup →
      ((q.foldl (agg_step projects) acc).map ProjectAggregate.project_id).Nodup := by
  induction q with
  | nil =>
    intro acc h
    exact h
  | cons e es ih =>
    intro acc h
    rw [List.foldl_cons]
    exact ih _ (agg_step_keys_nodup projects acc e h)

/-- In an accumulator with distinct project ids, looking up a member's own
project id finds exactly that member. -/
theorem aggFind_of_mem (l : List ProjectAggregate)
    (hn : (l.map ProjectAggregate.project_id).Nodup)
    (a : ProjectAggregate) (ha : a ∈ l) : aggFind l a.project_id = some a := by
  induction l with
  | nil => cases ha
  | cons b bs ih =>
    rw [List.map_cons, List.nodup_cons] at hn
    rcases List.mem_cons.mp ha with rfl | ha1
    · unfold aggFind
      exact List.find?_cons_of_pos _ (by simp)
    · have hne : (b.project_id == a.project_id) = true → False := by
        intro hcc
        rw [beq_iff_eq] at hcc
        exact hn.1 (hcc ▸ List.mem_map_of_mem _ ha1)
      have step : List.find? (fun x => x.project_id == a.project_id) (b :: bs) =
          List.find? (fun x => x.project_id == a.project_id) bs :=
        List.find?_cons_of_neg _ hne
      unfold aggFind
      rw [step]
      exact ih hn.2 ha1

/-- C9: `aggregate_by_project` considers only the filtered completed entries,
groups them by project id — the result's project ids are pairwise distinct and
are exactly the projects having a completed entry in the query — computes
each group's `total_seconds` as the sum of the entries' durations and
`billable_seconds` as the same sum restricted to billable entries, and returns
the groups sorted by `total_seconds` in descending order. -/
theorem C9_aggregate_by_project_spec (store : Store) (org_id : Nat)
    (user_id : Option Nat) (start_date end_date : Option Int) :
    ((aggregate_by_project store org_id user_id start_date end_date).map
        ProjectAggregate.project_id).Nodup
    ∧ (∀ p : Nat,
        p ∈ (aggregate_by_project store org_id user_id start_date end_date).map
            ProjectAggregate.project_id ↔
          ∃ e ∈ agg_query store.entries org_id user_id start_date end_date,
            e.end_time.isSome = true ∧ e.project_id = p)
    ∧ (∀ a ∈ aggregate_by_project store org_id user_id start_date end_date,
        a.total_seconds =
          specDurSum (agg_query store.entries org_id user_id start_date end_date)
            a.project_id
        ∧ a.billable_seconds =
          specBillSum (agg_query store.entries org_id user_id start_date end_date)
            a.project_id)
    ∧ (aggregate_by_project store org_id user_id start_date end_date).Pairwise
        (fun a b => b.total_seconds ≤ a.total_seconds) := by
  have hperm : (aggregate_by_project store org_id user_id start_date end_date).Perm
      ((agg_query store.entries org_id user_id start_date end_date).foldl
        (agg_step store.projects) []) := by
    unfold aggregate_by_project
    exact List.mergeSort_perm _ _
  have hnod : (((agg_query store.entries org_id user_id start_date end_date).foldl
      (agg_step store.projects) []).map ProjectAggregate.project_id).Nodup :=
    agg_foldl_keys_nodup _ _ [] (by simp)
  refine ⟨?_, ?_, ?_, ?_⟩
  · exact ((hperm.map ProjectAggregate.project_id).nodup_iff).mpr hnod
  · intro p
    rw [(hperm.map ProjectAggregate.project_id).mem_iff, mem_keys_agg_foldl]
    simp
  · intro a ha
    have haF := hperm.mem_iff.mp ha
    have hfind := aggFind_of_mem _ hnod a haF
    obtain ⟨ht, hb⟩ := totalOf_billOf_foldl store.projects
      (agg_query store.entries org_id user_id start_date end_date) [] a.project_id
    have h1 : totalOf ((agg_query store.entries org_id user_id start_date end_date).foldl
        (agg_step store.projects) []) a.project_id = a.total_seconds := by
      unfold totalOf
      rw [hfind]
      rfl
    have h2 : billOf ((agg_query store.entries org_id user_id start_date end_date).foldl
        (agg_step store.projects) []) a.project_id = a.billable_seconds := by
      unfold billOf
      rw [hfind]
      rfl
    rw [h1] at ht
    rw [h2] at hb
    simp [totalOf, billOf, aggFind] at ht hb
    exact ⟨ht, hb⟩
  · unfold aggregate_by_project
    refine List.Pairwise.imp ?_ (List.sorted_mergeSort ?_ ?_ _)
    · intro a b h
      exact of_decide_eq_true h
    · intro a b c h1 h2
      rw [decide_eq_true_eq] at h1 h2 ⊢
      omega
    · intro a b
      rw [Bool.or_eq_true, decide_eq_true_eq, decide_eq_true_eq]
      exact le_total _ _

end TimeCore
